import Mathlib

/-!
Verification development for the CSV ingestion pipeline of the Loader
repository.  The definitions below are a shallow embedding of the Python
sources:

* `Loader.Tiingo` embeds `loader.py` (the MySQL / Tiingo variant):
  `CSVLoader.validate_csv`, `CSVLoader.process_csv_file`,
  `CSVLoader.load_all_files` and `main`, together with the SQL executed
  against the `ticker_data` / `ticker_metadata` tables.
* `Loader.Fmp` embeds `src/loader.py` (the SQLite / FMP variant) of
  `CSVLoader.process_csv_file`.
* `Loader.process_csv_job` embeds `pipeline_jobs.py`.

A CSV file is modelled as an already lexed header plus rows of cells, a
cell being `Option String` (`none` is a missing value, pandas `NaN`).
Dates are encoded as naturals `y*512 + m*32 + d`, an order preserving
encoding of calendar dates.  The database is modelled as a keyed table
(list of keys plus a valuation), which is the semantics of a SQL table
with a UNIQUE key, and a statement level fault plan models database
errors; statements executed before `conn.commit()` only take effect when
the commit is reached, which is the transactional behaviour of the
MySQL connector with autocommit disabled.
-/

namespace Loader

/-- A cell of a parsed CSV data frame; `none` models a missing value
(pandas `NaN`). -/
abbrev Cell := Option String

/-- A CSV file as seen by `pd.read_csv`: file name, header row, data rows. -/
structure CsvFile where
  name : String
  header : List String
  rows : List (List Cell)
deriving DecidableEq

/-- Order preserving encoding of a calendar date `y-m-d` as a natural. -/
def dateCode (y m d : Nat) : Nat := y * 512 + m * 32 + d

/-- Split a character list on a separator. -/
def splitOnChar (sep : Char) : List Char → List (List Char)
  | [] => [[]]
  | c :: cs =>
    let rest := splitOnChar sep cs
    if c = sep then [] :: rest
    else
      match rest with
      | [] => [[c]]
      | g :: gs => (c :: g) :: gs

/-- Value of a decimal digit character. -/
def digitVal (c : Char) : Option Nat :=
  if '0' ≤ c ∧ c ≤ '9' then some (c.toNat - 48) else none

/-- Parse a nonempty all-digit character list as a natural. -/
def digitsToNat : List Char → Option Nat
  | [] => none
  | cs => go cs 0
where
  go : List Char → Nat → Option Nat
    | [], acc => some acc
    | c :: cs, acc =>
      match digitVal c with
      | none => none
      | some d => go cs (acc * 10 + d)

/-- Embedding of `pd.to_datetime` on a date string: an ISO `YYYY-MM-DD`
string parses to its encoding, anything else fails (raises). -/
def parseDate (s : String) : Option Nat :=
  match splitOnChar '-' s.data with
  | [y, m, d] =>
    match digitsToNat y, digitsToNat m, digitsToNat d with
    | some yn, some mn, some dn =>
      if 1 ≤ mn ∧ mn ≤ 12 ∧ 1 ≤ dn ∧ dn ≤ 31 then some (dateCode yn mn dn) else none
    | _, _, _ => none
  | _ => none

/-- Embedding of `pd.to_datetime` on a cell: a missing value becomes
`NaT` without raising (`some none`), a string either parses (`some
(some d)`) or raises (`none`). -/
def toDatetime (c : Cell) : Option (Option Nat) :=
  match c with
  | none => some none
  | some s => (parseDate s).map some

/-- Index of the first occurrence of a column name in a header (pandas
column lookup). -/
def colIdx (hdr : List String) (c : String) : Option Nat :=
  match hdr with
  | [] => none
  | h :: t => if h = c then some 0 else (colIdx t c).map (· + 1)

/-- Cell of a row at a given column index. -/
def getCell (row : List Cell) (i : Nat) : Cell := (row.get? i).join

/-- Cell of a row under a column name, `none` when absent. -/
def cellOf (hdr : List String) (row : List Cell) (c : String) : Cell :=
  ((colIdx hdr c).map (getCell row)).join

/-- The required column set checked by `validate_csv`. -/
def requiredCols : List String := ["date", "open", "high", "low", "close", "volume"]

/-- Embedding of `CSVLoader.validate_csv`: read the first five rows,
fail when a required column is missing from the header, fail when
reading the first date cell raises (including the `IndexError` on an
empty sample); every exception is caught and converted to `false`. -/
def validate_csv (f : CsvFile) : Bool :=
  let sample := f.rows.take 5
  if requiredCols.any (fun c => !(f.header.contains c)) then false
  else
    match sample.head? with
    | none => false
    | some r =>
      match colIdx f.header "date" with
      | none => false
      | some i => (toDatetime (getCell r i)).isSome

/-- Leftmost nonoverlapping removal of a pattern, driven by fuel so that
the definition is structural (the fuel is always the list length). -/
def removeAllF (pat : List Char) : Nat → List Char → List Char
  | 0, l => l
  | _ + 1, [] => []
  | fuel + 1, c :: cs =>
    if (c :: cs).take pat.length = pat ∧ pat ≠ [] then
      removeAllF pat fuel ((c :: cs).drop pat.length)
    else c :: removeAllF pat fuel cs

/-- Remove every occurrence of a pattern (Python `str.replace(pat, "")`). -/
def removeAll (pat : List Char) (l : List Char) : List Char :=
  removeAllF pat l.length l

/-- Uppercase one ASCII character (Python `str.upper`). -/
def upChar (c : Char) : Char :=
  if 'a' ≤ c ∧ c ≤ 'z' then Char.ofNat (c.toNat - 32) else c

/-- Uppercase the file name with every occurrence of `.csv` removed:
`os.path.basename(csv_path).replace(".csv", "").upper()`. -/
def tickerOfFilename (name : String) : String :=
  String.mk ((removeAll ".csv".data name.data).map upChar)

/-- Rename one column name through a column map, unmapped names kept. -/
def renameCol (m : List (String × String)) (c : String) : String :=
  match m.lookup c with
  | some c2 => c2
  | none => c

/-- Embedding of `df.rename(columns=column_map)`. -/
def renameHeader (m : List (String × String)) (hdr : List String) : List String :=
  hdr.map (renameCol m)

/-- Embedding of `df[c] = v`: overwrite the column when present,
otherwise append it. -/
def setColumn (hdr : List String) (rows : List (List Cell)) (c : String) (v : Cell) :
    List String × List (List Cell) :=
  match colIdx hdr c with
  | some i => (hdr, rows.map (fun r => r.set i v))
  | none => (hdr ++ [c], rows.map (fun r => r ++ [v]))

/-- Parse every date cell of the date column; a missing or unparseable
date is a failure for the whole file (the unparseable string raises in
`pd.to_datetime`, a missing date would be rejected by the NOT NULL
date column at write time; both route the file to failed). -/
def allDates : List Cell → Option (List Nat)
  | [] => some []
  | c :: cs =>
    match c with
    | none => none
    | some s =>
      match parseDate s with
      | none => none
      | some d => (allDates cs).map (d :: ·)

/-- Minimum of a list of dates (`df["date"].min()`). -/
def minL : List Nat → Nat
  | [] => 0
  | x :: xs => xs.foldl min x

/-- Maximum of a list of dates (`df["date"].max()`). -/
def maxL : List Nat → Nat
  | [] => 0
  | x :: xs => xs.foldl max x

/-- Fuel driven chunking so that the definition is structural; the fuel
is always the list length, which bounds the number of chunks. -/
def chunksF (n : Nat) : Nat → List α → List (List α)
  | _, [] => []
  | 0, x :: xs => [x :: xs]
  | fuel + 1, x :: xs => (x :: xs).take (n + 1) :: chunksF n fuel ((x :: xs).drop (n + 1))

/-- Split a list into chunks of size `n + 1`
(`[df[i:i+batch_size] for i in range(0, len(df), batch_size)]`). -/
def chunksP (n : Nat) (l : List α) : List (List α) := chunksF n l.length l

/-- Chunks of size `bs` (the loader is called with `batch_size = 10000`;
a size of zero is clamped to 1). -/
def chunksOf (bs : Nat) (l : List α) : List (List α) := chunksP (bs - 1) l

/-- Map a fallible function over a list, failing as soon as one element
fails (the construction of the tuple list for one batch). -/
def mapO (g : α → Option β) : List α → Option (List β)
  | [] => some []
  | x :: xs =>
    match g x with
    | none => none
    | some y => (mapO g xs).map (y :: ·)

/-- Key of the data table: `(entity_key, date)`, per the UNIQUE KEY
`(ticker, date)` of `ticker_data`. -/
abbrev Key := String × Nat

/-- A SQL table with a unique key: the list of keys in insertion order
plus a valuation giving the value columns stored under each key. -/
structure Table (V : Type) where
  keys : List Key
  valsAt : Key → Option V

/-- The empty table. -/
def emptyTable : Table V := ⟨[], fun _ => none⟩

/-- Upsert for `INSERT ... ON DUPLICATE KEY UPDATE col = VALUES(col), ...`
where every value column is listed (the Tiingo statement): on conflict
the stored value columns are replaced wholesale by the incoming ones. -/
def upsertReplace (t : Table V) (k : Key) (v : V) : Table V :=
  { keys := if k ∈ t.keys then t.keys else t.keys ++ [k],
    valsAt := fun q => if q = k then some v else t.valsAt q }

/-- Apply a list of keyed upserts in order (one `executemany`). -/
def applyReplace (t : Table V) (rs : List (Key × V)) : Table V :=
  rs.foldl (fun a kv => upsertReplace a kv.1 kv.2) t

/-- The last value assigned to a key by a list of upserts, if any. -/
def lastAssign (rs : List (Key × V)) (q : Key) : Option V :=
  match rs with
  | [] => none
  | kv :: rest =>
    match lastAssign rest q with
    | some v => some v
    | none => if kv.1 = q then some kv.2 else none

/-- Named value columns of an FMP row: association list column → cell. -/
abbrev AVals := List (String × Cell)

/-- Set one named field, updating the first occurrence or appending. -/
def setField : AVals → String → Cell → AVals
  | [], c, v => [(c, v)]
  | (c1, v1) :: rest, c, v =>
    if c1 = c then (c1, v) :: rest else (c1, v1) :: setField rest c v

/-- Merge incoming named columns into stored ones: the semantics of
`ON CONFLICT(symbol, date) DO UPDATE SET col = excluded.col, ...` which
only touches the listed columns. -/
def mergeVals (old new : AVals) : AVals :=
  new.foldl (fun a p => setField a p.1 p.2) old

/-- Read a named field; a field never written is NULL. -/
def getField (v : AVals) (c : String) : Cell := (v.lookup c).join

/-- Upsert for the SQLite statement of the FMP loader: on conflict only
the incoming columns are overwritten, others keep the stored value. -/
def upsertMerge (t : Table AVals) (k : Key) (v : AVals) : Table AVals :=
  if k ∈ t.keys then
    { keys := t.keys,
      valsAt := fun q => if q = k then some (mergeVals ((t.valsAt k).getD []) v) else t.valsAt q }
  else
    { keys := t.keys ++ [k],
      valsAt := fun q => if q = k then some v else t.valsAt q }

/-- Apply a list of keyed merge upserts in order. -/
def applyMerge (t : Table AVals) (rs : List (Key × AVals)) : Table AVals :=
  rs.foldl (fun a kv => upsertMerge a kv.1 kv.2) t

/-- One row of the metadata table (`ticker_metadata`). -/
structure MetaRow where
  ticker : String
  first_date : Nat
  last_date : Nat
  total_rows : Nat
  last_updated : Nat
deriving DecidableEq

/-- Embedding of the metadata statement: `INSERT INTO metadata (ticker,
first_date, last_date, total_rows) VALUES (...) ON DUPLICATE KEY UPDATE
first_date = LEAST(first_date, VALUES(first_date)), last_date =
GREATEST(last_date, VALUES(last_date)), total_rows = VALUES(total_rows),
last_updated = CURRENT_TIMESTAMP`. -/
def upsertMeta (m : List MetaRow) (tk : String) (fd ld total now : Nat) : List MetaRow :=
  if m.any (fun r => r.ticker = tk) then
    m.map (fun r =>
      if r.ticker = tk then
        { r with
          first_date := min r.first_date fd
          last_date := max r.last_date ld
          total_rows := total
          last_updated := now }
      else r)
  else m ++ [⟨tk, fd, ld, total, now⟩]

/-- The metadata row stored under an entity key. -/
def findMeta (m : List MetaRow) (tk : String) : Option MetaRow :=
  m.find? (fun r => r.ticker = tk)

/-- The three directories a file can live in. -/
structure FsState where
  source : List String
  processedD : List String
  failedD : List String
deriving DecidableEq

/-- Append a name to a directory, overwriting an existing file of the
same name (`os.rename` onto an existing destination). -/
def addUnique (l : List String) (x : String) : List String :=
  if x ∈ l then l else l ++ [x]

/-- Move a file out of the source directory into processed or failed. -/
def moveFile (fs : FsState) (name : String) (toFailed : Bool) : FsState :=
  { source := fs.source.filter (fun n => n ≠ name),
    processedD := if toFailed then fs.processedD else addUnique fs.processedD name,
    failedD := if toFailed then addUnique fs.failedD name else fs.failedD }

/-- Statement level fault plan for one file: whether
`db_manager.get_connection()` raises, and which transaction statement
indices raise (batch `executemany` calls are statements `0 ..
numBatches - 1`, the metadata `execute` is statement `numBatches`, the
`conn.commit()` is statement `numBatches + 1`). -/
structure FailPlan where
  connectFails : Bool
  failAt : List Nat
deriving DecidableEq

/-- Whether statement `i` of the transaction raises under a plan. -/
def stmtFails (p : FailPlan) (i : Nat) : Bool := p.failAt.contains i

/-- The plan under which every database call succeeds. -/
def noFail : FailPlan := ⟨false, []⟩

/-- Full system state: directories, data table, metadata table, and the
number of database connections acquired but never explicitly closed. -/
structure SysState (V : Type) where
  fs : FsState
  data : Table V
  meta : List MetaRow
  leakedConns : Nat

/-- Result of the `try` block of `process_csv_file`. -/
inductive TryResult (V : Type)
  | emptyFile : TryResult V
  | exnNoConn : TryResult V
  | exnConnOpen : TryResult V
  | ok : Table V → List MetaRow → TryResult V

namespace Tiingo

/-- The Tiingo column map of `loader.py`. -/
def columnMap : List (String × String) :=
  [("date", "date"), ("open", "open"), ("high", "high"), ("low", "low"),
   ("close", "close"), ("volume", "volume"), ("adjOpen", "adj_open"),
   ("adjHigh", "adj_high"), ("adjLow", "adj_low"), ("adjClose", "adj_close"),
   ("adjVolume", "adj_volume"), ("divCash", "div_cash"),
   ("splitFactor", "split_factor")]

/-- The fixed column list of the INSERT statement in `process_csv_file`. -/
def insertCols : List String :=
  ["ticker", "date", "open", "high", "low", "close", "volume",
   "adj_open", "adj_high", "adj_low", "adj_close", "adj_volume",
   "div_cash", "split_factor"]

/-- The value columns (everything but the key columns ticker, date). -/
def valueCols : List String := insertCols.drop 2

/-- The transformation steps of `process_csv_file` before the database
phase: rename columns, stamp the ticker column with the file name
ticker, parse the date column.  `none` models an exception (a missing
date column or a date that fails to parse). -/
def transformed (f : CsvFile) : Option (List String × List (List Cell) × List Nat) :=
  let hdr1 := renameHeader columnMap f.header
  let p := setColumn hdr1 f.rows "ticker" (some (tickerOfFilename f.name))
  match colIdx p.1 "date" with
  | none => none
  | some di =>
    match allDates (p.2.map (fun r => getCell r di)) with
    | none => none
    | some ds => some (p.1, p.2, ds)

/-- `batch[columns]` requires every insert column to be present. -/
def hasCols (hdr : List String) : Bool := insertCols.all hdr.contains

/-- One tuple of `batch[columns].itertuples`: the key is the ticker cell
paired with the parsed date, the payload the value column cells.  A
NULL ticker cannot be keyed (NOT NULL key column) and is an error. -/
def tupleOf (hdr : List String) (rd : List Cell × Nat) : Option (Key × List Cell) :=
  match cellOf hdr rd.1 "ticker" with
  | none => none
  | some t => some ((t, rd.2), valueCols.map (fun c => cellOf hdr rd.1 c))

/-- The batch insert loop: for batch `i`, `batch[columns]` raises if an
insert column is missing or a ticker cell is NULL, then the
`executemany` raises when the plan says so; otherwise the upserts are
buffered in the open transaction.  `none` models a raised exception,
in which case nothing was committed. -/
def dbPhase (hdr : List String) (plan : FailPlan) :
    Nat → List (List (List Cell × Nat)) → Table (List Cell) → Option (Table (List Cell))
  | _, [], acc => some acc
  | i, b :: rest, acc =>
    if hasCols hdr then
      match mapO (tupleOf hdr) b with
      | none => none
      | some tups =>
        if stmtFails plan i then none
        else dbPhase hdr plan (i + 1) rest (applyReplace acc tups)
    else none

/-- The `try` block of `process_csv_file`: empty-file early return,
transformation, connection acquisition, batched inserts, metadata
upsert, commit.  The two `exn` constructors distinguish whether a
connection had been acquired when the exception was raised. -/
def tryBody (f : CsvFile) (plan : FailPlan) (data : Table (List Cell))
    (meta : List MetaRow) (now bs : Nat) : TryResult (List Cell) :=
  if f.rows.isEmpty then .emptyFile
  else
    match transformed f with
    | none => .exnNoConn
    | some (hdr, rows2, ds) =>
      let fd := minL ds
      let ld := maxL ds
      let total := rows2.length
      let batches := chunksOf bs (rows2.zip ds)
      if plan.connectFails then .exnNoConn
      else
        match dbPhase hdr plan 0 batches data with
        | none => .exnConnOpen
        | some data2 =>
          if stmtFails plan batches.length then .exnConnOpen
          else if stmtFails plan (batches.length + 1) then .exnConnOpen
          else .ok data2 (upsertMeta meta (tickerOfFilename f.name) fd ld total now)

/-- Embedding of `CSVLoader.process_csv_file`: run the `try` block; on
success close the connection and move the file to processed; on an
exception move the file to failed (the exception handler does not close
the connection, so a connection acquired before the exception stays
open); an empty file returns `False` without touching anything. -/
def process_csv_file (f : CsvFile) (plan : FailPlan) (now bs : Nat)
    (s : SysState (List Cell)) : SysState (List Cell) × Bool :=
  match tryBody f plan s.data s.meta now bs with
  | .emptyFile => (s, false)
  | .exnNoConn => ({ s with fs := moveFile s.fs f.name true }, false)
  | .exnConnOpen =>
      ({ s with fs := moveFile s.fs f.name true, leakedConns := s.leakedConns + 1 }, false)
  | .ok data2 meta2 =>
      ({ s with data := data2, meta := meta2, fs := moveFile s.fs f.name false }, true)

/-- The per-file loop of `load_all_files` over the validated files,
counting successes and failures. -/
def runAll (plans : String → FailPlan) (now bs : Nat) :
    List CsvFile → SysState (List Cell) → Nat → Nat → SysState (List Cell) × Nat × Nat
  | [], s, suc, fl => (s, suc, fl)
  | f :: rest, s, suc, fl =>
    let r := process_csv_file f (plans f.name) now bs s
    runAll plans now bs rest r.1 (if r.2 then suc + 1 else suc) (if r.2 then fl else fl + 1)

/-- Embedding of `CSVLoader.load_all_files`: bare `return` (`None`,
modelled as `.ok none`) when no CSV files were found or none validated,
otherwise validate all files up front, process the valid ones (invalid
files are only skipped) and count successes and failures.  When at least
one file succeeded, the summary block then calls
`db_manager.get_ticker_stats(table_name=self.table_name)`, but
`DatabaseManager.get_ticker_stats` accepts no arguments, so a
`TypeError` is raised and the final `return successful, failed` is never
reached; the directory and database effects of the processed files
remain.  Only a run in which every processed file failed reaches the
return of the pair. -/
def load_all_files (files : List CsvFile) (plans : String → FailPlan) (now bs : Nat)
    (s : SysState (List Cell)) :
    Except String (Option (Nat × Nat)) × SysState (List Cell) :=
  if files.isEmpty then (.ok none, s)
  else
    let valid := files.filter validate_csv
    if valid.isEmpty then (.ok none, s)
    else
      let r := runAll plans now bs valid s 0 0
      ((if 0 < r.2.1 then
          .error "TypeError: get_ticker_stats takes no keyword argument table_name"
        else .ok (some (r.2.1, r.2.2))), r.1)

/-- The tuple unpacking `successful, failed = loader.load_all_files(...)`
performed by `main`: unpacking `None` raises a `TypeError`. -/
def mainUnpack : Option (Nat × Nat) → Except String (Nat × Nat)
  | none => .error "TypeError: cannot unpack non-iterable NoneType object"
  | some p => .ok p

end Tiingo

namespace Fmp

/-- The FMP column map of `src/loader.py`. -/
def columnMapF : List (String × String) :=
  [("date", "date"), ("open", "open"), ("high", "high"), ("low", "low"),
   ("close", "close"), ("volume", "volume"), ("vwap", "vwap"),
   ("change", "change_value"), ("changePercent", "changePercent"),
   ("unadjustedVolume", "unadjustedVolume"), ("adjOpen", "adjOpen"),
   ("adjHigh", "adjHigh"), ("adjLow", "adjLow"), ("adjClose", "adjClose"),
   ("adjVolume", "adjVolume"), ("symbol", "symbol")]

/-- All possible insert columns of the FMP loader, in order. -/
def allColumns : List String :=
  ["symbol", "date", "open", "high", "low", "close", "volume",
   "vwap", "change_value", "changePercent", "unadjustedVolume",
   "adjOpen", "adjHigh", "adjLow", "adjClose", "adjVolume"]

/-- The transformation steps of the FMP `process_csv_file`: rename the
known columns, add the symbol column from the file name only when the
file does not carry one, parse the date column. -/
def transformedF (f : CsvFile) : Option (List String × List (List Cell) × List Nat) :=
  let hdr1 := renameHeader columnMapF f.header
  let p :=
    if hdr1.contains "symbol" then (hdr1, f.rows)
    else setColumn hdr1 f.rows "symbol" (some (tickerOfFilename f.name))
  match colIdx p.1 "date" with
  | none => none
  | some di =>
    match allDates (p.2.map (fun r => getCell r di)) with
    | none => none
    | some ds => some (p.1, p.2, ds)

/-- `columns = [col for col in all_columns if col in df.columns]`. -/
def includedCols (hdr : List String) : List String :=
  allColumns.filter hdr.contains

/-- `update_columns = [col for col in columns if col not in [symbol, date]]`,
the columns stored as values (symbol and date are the key). -/
def includedValueCols (hdr : List String) : List String :=
  (includedCols hdr).filter (fun c => c ≠ "symbol" ∧ c ≠ "date")

/-- One tuple of the FMP batch insert: key from the per-row symbol cell
and the parsed date, values the included non-key columns by name. -/
def tupleOfF (hdr : List String) (rd : List Cell × Nat) : Option (Key × AVals) :=
  match cellOf hdr rd.1 "symbol" with
  | none => none
  | some t =>
    some ((t, rd.2), (includedValueCols hdr).map (fun c => (c, cellOf hdr rd.1 c)))

/-- The FMP batch insert loop; the column list is filtered to the
present columns, so no KeyError can occur here. -/
def dbPhaseF (hdr : List String) (plan : FailPlan) :
    Nat → List (List (List Cell × Nat)) → Table AVals → Option (Table AVals)
  | _, [], acc => some acc
  | i, b :: rest, acc =>
    match mapO (tupleOfF hdr) b with
    | none => none
    | some tups =>
      if stmtFails plan i then none
      else dbPhaseF hdr plan (i + 1) rest (applyMerge acc tups)

/-- The `try` block of the FMP `process_csv_file`; the metadata upsert
is keyed by the file name ticker. -/
def tryBodyF (f : CsvFile) (plan : FailPlan) (data : Table AVals)
    (meta : List MetaRow) (now bs : Nat) : TryResult AVals :=
  if f.rows.isEmpty then .emptyFile
  else
    match transformedF f with
    | none => .exnNoConn
    | some (hdr, rows2, ds) =>
      let fd := minL ds
      let ld := maxL ds
      let total := rows2.length
      let batches := chunksOf bs (rows2.zip ds)
      if plan.connectFails then .exnNoConn
      else
        match dbPhaseF hdr plan 0 batches data with
        | none => .exnConnOpen
        | some data2 =>
          if stmtFails plan batches.length then .exnConnOpen
          else if stmtFails plan (batches.length + 1) then .exnConnOpen
          else .ok data2 (upsertMeta meta (tickerOfFilename f.name) fd ld total now)

/-- Embedding of the FMP `CSVLoader.process_csv_file`. -/
def process_csv_fileF (f : CsvFile) (plan : FailPlan) (now bs : Nat)
    (s : SysState AVals) : SysState AVals × Bool :=
  match tryBodyF f plan s.data s.meta now bs with
  | .emptyFile => (s, false)
  | .exnNoConn => ({ s with fs := moveFile s.fs f.name true }, false)
  | .exnConnOpen =>
      ({ s with fs := moveFile s.fs f.name true, leakedConns := s.leakedConns + 1 }, false)
  | .ok data2 meta2 =>
      ({ s with data := data2, meta := meta2, fs := moveFile s.fs f.name false }, true)

end Fmp

/-- Embedding of `process_csv_job` of `pipeline_jobs.py`: a missing file
is a logged no-op returning `False`.  For an existing file the job
constructs `CSVLoader(csv_dir=..., processed_dir=..., failed_dir=...,
table_name=data_table, metadata_table=meta_table)`, but
`CSVLoader.__init__` in `loader.py` accepts only the three directory
arguments, so the construction raises a `TypeError` before
`validate_csv` is ever called; the job terminates without touching the
directories or the database and the file stays where it is. -/
def process_csv_job (job : Option CsvFile) (s : SysState (List Cell)) :
    SysState (List Cell) × Except String Bool :=
  match job with
  | none => (s, .ok false)
  | some _ =>
    (s, .error "TypeError: CSVLoader got an unexpected keyword argument table_name")

/-! ### Helper lemmas about the list and table operations -/

theorem mapO_append {g : α → Option β} : ∀ {l1 l2 : List α} {r : List β},
    mapO g (l1 ++ l2) = some r →
    ∃ r1 r2, mapO g l1 = some r1 ∧ mapO g l2 = some r2 ∧ r = r1 ++ r2 := by
  intro l1
  induction l1 with
  | nil => exact fun h => ⟨[], _, rfl, h, rfl⟩
  | cons x xs ih =>
    intro l2 r h
    rw [List.cons_append, mapO] at h
    cases hx : g x with
    | none => rw [hx] at h; cases h
    | some y =>
      rw [hx] at h
      cases hrest : mapO g (xs ++ l2) with
      | none => rw [hrest] at h; cases h
      | some rs =>
        rw [hrest] at h
        obtain ⟨r1, r2, h1, h2, h3⟩ := ih hrest
        refine ⟨y :: r1, r2, ?_, h2, ?_⟩
        · rw [mapO, hx, h1]
          rfl
        · cases h
          rw [h3]
          rfl

theorem mapO_mem {g : α → Option β} : ∀ {l : List α} {r : List β},
    mapO g l = some r → ∀ b ∈ r, ∃ a ∈ l, g a = some b := by
  intro l
  induction l with
  | nil =>
    intro r h b hb
    rw [mapO] at h
    cases h
    cases hb
  | cons x xs ih =>
    intro r h b hb
    rw [mapO] at h
    cases hx : g x with
    | none => rw [hx] at h; cases h
    | some y =>
      rw [hx] at h
      cases hrest : mapO g xs with
      | none => rw [hrest] at h; cases h
      | some rs =>
        rw [hrest] at h
        cases h
        rcases List.mem_cons.mp hb with hb | hb
        · exact ⟨x, List.mem_cons_self x xs, hb ▸ hx⟩
        · obtain ⟨a, ha, hga⟩ := ih hrest b hb
          exact ⟨a, List.mem_cons_of_mem x ha, hga⟩

theorem chunksF_flatten (n : Nat) : ∀ (fuel : Nat) (l : List α),
    (chunksF n fuel l).flatten = l := by
  intro fuel
  induction fuel with
  | zero =>
    intro l
    cases l with
    | nil => rfl
    | cons x xs => simp [chunksF]
  | succ fuel2 ih =>
    intro l
    cases l with
    | nil => rfl
    | cons x xs =>
      show ((x :: xs).take (n + 1) :: chunksF n fuel2 ((x :: xs).drop (n + 1))).flatten = x :: xs
      rw [List.flatten_cons, ih ((x :: xs).drop (n + 1))]
      exact List.take_append_drop _ _

theorem chunksOf_flatten (bs : Nat) (l : List α) : (chunksOf bs l).flatten = l :=
  chunksF_flatten _ _ l

theorem chunksP_ne_nil (n : Nat) {l : List α} (h : l ≠ []) : chunksP n l ≠ [] := by
  cases l with
  | nil => exact absurd rfl h
  | cons x xs =>
    show chunksF n (x :: xs).length (x :: xs) ≠ []
    rw [List.length_cons]
    exact List.cons_ne_nil _ _

theorem Table.ext2 {t1 t2 : Table V} (hk : t1.keys = t2.keys)
    (hv : ∀ q, t1.valsAt q = t2.valsAt q) : t1 = t2 := by
  cases t1
  cases t2
  simp only [Table.mk.injEq]
  exact ⟨hk, funext hv⟩

theorem valsAt_applyReplace {V : Type} :
    ∀ (rs : List (Key × V)) (t : Table V) (q : Key),
    (applyReplace t rs).valsAt q =
      match lastAssign rs q with
      | some v => some v
      | none => t.valsAt q := by
  intro rs
  induction rs with
  | nil => intro t q; rfl
  | cons kv rest ih =>
    intro t q
    show (applyReplace (upsertReplace t kv.1 kv.2) rest).valsAt q = _
    rw [ih]
    cases hl : lastAssign rest q with
    | some v => rw [lastAssign, hl]
    | none =>
      rw [lastAssign, hl]
      show (if q = kv.1 then some kv.2 else t.valsAt q) = _
      by_cases hq : kv.1 = q
      · rw [if_pos hq, if_pos hq.symm]
      · rw [if_neg hq, if_neg (fun h => hq h.symm)]

theorem mem_keys_upsertReplace {t : Table V} {k q : Key} {v : V} :
    q ∈ (upsertReplace t k v).keys ↔ q ∈ t.keys ∨ q = k := by
  unfold upsertReplace
  by_cases h : k ∈ t.keys
  · rw [if_pos h]
    constructor
    · exact Or.inl
    · rintro (hq | rfl)
      · exact hq
      · exact h
  · rw [if_neg h]
    simp

theorem mem_keys_applyReplace_left {V : Type} :
    ∀ {rs : List (Key × V)} {t : Table V} {q : Key},
    q ∈ t.keys → q ∈ (applyReplace t rs).keys := by
  intro rs
  induction rs with
  | nil => exact fun h => h
  | cons kv rest ih =>
    intro t q hq
    exact ih (mem_keys_upsertReplace.mpr (Or.inl hq))

theorem mem_keys_applyReplace_of_mem {V : Type} :
    ∀ {rs : List (Key × V)} {t : Table V} {kv : Key × V},
    kv ∈ rs → kv.1 ∈ (applyReplace t rs).keys := by
  intro rs
  induction rs with
  | nil => intro t kv h; cases h
  | cons kv0 rest ih =>
    intro t kv h
    rcases List.mem_cons.mp h with h | h
    · subst h
      show kv.1 ∈ (applyReplace (upsertReplace t kv.1 kv.2) rest).keys
      exact mem_keys_applyReplace_left (mem_keys_upsertReplace.mpr (Or.inr rfl))
    · exact ih h

theorem keys_applyReplace_stable {V : Type} :
    ∀ {rs : List (Key × V)} {t : Table V},
    (∀ kv ∈ rs, kv.1 ∈ t.keys) → (applyReplace t rs).keys = t.keys := by
  intro rs
  induction rs with
  | nil => intro t _; rfl
  | cons kv rest ih =>
    intro t h
    have h0 : kv.1 ∈ t.keys := h kv (List.mem_cons_self _ _)
    have hkeys : (upsertReplace t kv.1 kv.2).keys = t.keys := by
      unfold upsertReplace
      rw [if_pos h0]
    show (applyReplace (upsertReplace t kv.1 kv.2) rest).keys = t.keys
    rw [ih, hkeys]
    intro kv2 hkv2
    rw [hkeys]
    exact h kv2 (List.mem_cons_of_mem _ hkv2)

theorem nodup_keys_upsertReplace {t : Table V} {k : Key} {v : V}
    (h : t.keys.Nodup) : (upsertReplace t k v).keys.Nodup := by
  unfold upsertReplace
  by_cases hm : k ∈ t.keys
  · rw [if_pos hm]; exact h
  · rw [if_neg hm]
    rw [List.nodup_append]
    exact ⟨h, List.nodup_singleton _, by simp [hm]⟩

theorem nodup_keys_applyReplace {V : Type} :
    ∀ {rs : List (Key × V)} {t : Table V},
    t.keys.Nodup → (applyReplace t rs).keys.Nodup := by
  intro rs
  induction rs with
  | nil => exact fun h => h
  | cons kv rest ih => exact fun h => ih (nodup_keys_upsertReplace h)

theorem applyReplace_idem {V : Type} (t : Table V) (rs : List (Key × V)) :
    applyReplace (applyReplace t rs) rs = applyReplace t rs := by
  apply Table.ext2
  · apply keys_applyReplace_stable
    intro kv hkv
    exact mem_keys_applyReplace_of_mem hkv
  · intro q
    rw [valsAt_applyReplace, valsAt_applyReplace]
    cases hl : lastAssign rs q <;> simp [hl]

theorem applyReplace_append {V : Type} (t : Table V) (rs1 rs2 : List (Key × V)) :
    applyReplace t (rs1 ++ rs2) = applyReplace (applyReplace t rs1) rs2 :=
  List.foldl_append _ _ _ _

theorem find?_append_none {p : α → Bool} {l1 l2 : List α} (h : l1.find? p = none) :
    (l1 ++ l2).find? p = l2.find? p := by
  induction l1 with
  | nil => rfl
  | cons x xs ih =>
    rw [List.find?_cons] at h
    cases hx : p x with
    | true => rw [hx] at h; cases h
    | false =>
      rw [hx] at h
      rw [List.cons_append, List.find?_cons, hx]
      exact ih h

theorem findMeta_upsertMeta (m : List MetaRow) (tk : String) (fd ld total now : Nat) :
    findMeta (upsertMeta m tk fd ld total now) tk =
      match findMeta m tk with
      | some r =>
        some { r with
                first_date := min r.first_date fd
                last_date := max r.last_date ld
                total_rows := total
                last_updated := now }
      | none => some ⟨tk, fd, ld, total, now⟩ := by
  simp only [findMeta]
  induction m with
  | nil => simp [upsertMeta, List.find?]
  | cons r m2 ih =>
    by_cases hr : r.ticker = tk
    · rw [upsertMeta, if_pos (by simp [List.any_cons, hr])]
      rw [List.map_cons, if_pos hr]
      rw [List.find?_cons_of_pos _ (by simp [hr]), List.find?_cons_of_pos _ (by simp [hr])]
    · by_cases hm2 : (m2.any fun x => decide (x.ticker = tk)) = true
      · rw [upsertMeta, if_pos (by simp [List.any_cons, hr, hm2]), List.map_cons, if_neg hr]
        rw [List.find?_cons_of_neg _ (by simp [hr]), List.find?_cons_of_neg _ (by simp [hr])]
        have ih2 := ih
        rw [upsertMeta, if_pos hm2] at ih2
        exact ih2
      · rw [upsertMeta, if_neg (fun hcon => hm2 (by simpa [List.any_cons, hr] using hcon))]
        have hnone : m2.find? (fun x => decide (x.ticker = tk)) = none := by
          rw [List.find?_eq_none]
          intro x hx
          simp only [decide_eq_true_eq]
          intro hxe
          apply hm2
          rw [List.any_eq_true]
          exact ⟨x, hx, by simp [hxe]⟩
        rw [List.cons_append, List.find?_cons_of_neg _ (by simp [hr])]
        rw [find?_append_none hnone]
        rw [List.find?_cons_of_pos _ (by simp), List.find?_cons_of_neg _ (by simp [hr]), hnone]

theorem upsertMeta_of_not_found {m : List MetaRow} {tk : String} (fd ld total now : Nat)
    (h : findMeta m tk = none) :
    upsertMeta m tk fd ld total now = m ++ [⟨tk, fd, ld, total, now⟩] := by
  rw [upsertMeta, if_neg]
  intro hany
  rw [List.any_eq_true] at hany
  obtain ⟨x, hx, hpx⟩ := hany
  rw [findMeta, List.find?_eq_none] at h
  exact absurd hpx (by simpa using h x hx)

theorem allDates_length : ∀ {cs : List Cell} {ds : List Nat},
    allDates cs = some ds → ds.length = cs.length := by
  intro cs
  induction cs with
  | nil =>
    intro ds h
    simp only [allDates] at h
    injection h with h2
    subst h2
    rfl
  | cons c cs2 ih =>
    intro ds h
    cases c with
    | none =>
      simp only [allDates] at h
      exact Option.noConfusion h
    | some s =>
      simp only [allDates] at h
      cases hp : parseDate s with
      | none => rw [hp] at h; cases h
      | some d =>
        rw [hp] at h
        cases hrest : allDates cs2 with
        | none => rw [hrest] at h; cases h
        | some ds2 =>
          rw [hrest] at h
          injection h with h2
          subst h2
          simp [ih hrest]

theorem setColumn_snd_length (hdr : List String) (rows : List (List Cell))
    (c : String) (v : Cell) : ((setColumn hdr rows c v).2).length = rows.length := by
  unfold setColumn
  cases colIdx hdr c <;> simp

theorem stmtFails_noFail (j : Nat) : stmtFails noFail j = false := rfl

namespace Tiingo

theorem dbPhase_ok {hdr : List String} {plan : FailPlan} (hcols : hasCols hdr = true) :
    ∀ (bsl : List (List (List Cell × Nat))) (i : Nat) (t : Table (List Cell))
      (ts : List (Key × List Cell)),
    mapO (tupleOf hdr) bsl.flatten = some ts →
    (∀ j, j < bsl.length → stmtFails plan (i + j) = false) →
    dbPhase hdr plan i bsl t = some (applyReplace t ts) := by
  intro bsl
  induction bsl with
  | nil =>
    intro i t ts hts _
    rw [List.flatten_nil, mapO] at hts
    injection hts with h2
    subst h2
    rfl
  | cons b rest ih =>
    intro i t ts hts hstmt
    rw [List.flatten_cons] at hts
    obtain ⟨r1, r2, h1, h2, rfl⟩ := mapO_append hts
    have hs0 : stmtFails plan i = false := by simpa using hstmt 0 (by simp)
    simp only [dbPhase, hcols, if_true, h1, hs0, Bool.false_eq_true, if_false]
    rw [applyReplace_append]
    apply ih (i + 1) _ r2 h2
    intro j hj
    have heq : i + 1 + j = i + (j + 1) := by omega
    rw [heq]
    exact hstmt (j + 1) (by simp only [List.length_cons]; omega)

theorem dbPhase_fail {hdr : List String} {plan : FailPlan} (hcols : hasCols hdr = true) :
    ∀ (bsl : List (List (List Cell × Nat))) (i : Nat) (t : Table (List Cell))
      (ts : List (Key × List Cell)),
    mapO (tupleOf hdr) bsl.flatten = some ts →
    (∃ j, j < bsl.length ∧ stmtFails plan (i + j) = true) →
    dbPhase hdr plan i bsl t = none := by
  intro bsl
  induction bsl with
  | nil =>
    intro i t ts _ hex
    obtain ⟨j, hj, _⟩ := hex
    exact absurd hj (by simp)
  | cons b rest ih =>
    intro i t ts hts hex
    rw [List.flatten_cons] at hts
    obtain ⟨r1, r2, h1, h2, rfl⟩ := mapO_append hts
    obtain ⟨j, hj, hjf⟩ := hex
    cases hs0 : stmtFails plan i with
    | true => simp only [dbPhase, hcols, if_true, h1, hs0]
    | false =>
      simp only [dbPhase, hcols, if_true, h1, hs0, Bool.false_eq_true, if_false]
      apply ih (i + 1) _ r2 h2
      cases j with
      | zero =>
        rw [Nat.add_zero] at hjf
        rw [hjf] at hs0
        cases hs0
      | succ j2 =>
        refine ⟨j2, by simp only [List.length_cons] at hj; omega, ?_⟩
        have heq : i + 1 + j2 = i + (j2 + 1) := by omega
        rw [heq]
        exact hjf

theorem transformed_len {f : CsvFile} {hdr : List String} {rows2 : List (List Cell)}
    {ds : List Nat} (h : transformed f = some (hdr, rows2, ds)) :
    rows2.length = f.rows.length ∧ ds.length = rows2.length := by
  simp only [transformed] at h
  cases hdi : colIdx (setColumn (renameHeader columnMap f.header) f.rows "ticker"
      (some (tickerOfFilename f.name))).1 "date" with
  | none =>
    simp only [hdi] at h
    exact Option.noConfusion h
  | some di =>
    simp only [hdi] at h
    cases hda : allDates (((setColumn (renameHeader columnMap f.header) f.rows "ticker"
        (some (tickerOfFilename f.name))).2).map (fun r => getCell r di)) with
    | none =>
      simp only [hda] at h
      exact Option.noConfusion h
    | some ds2 =>
      simp only [hda] at h
      injection h with h2
      have hrw : rows2 = (setColumn (renameHeader columnMap f.header) f.rows "ticker"
          (some (tickerOfFilename f.name))).2 := by
        have := congrArg (fun (x : List String × List (List Cell) × List Nat) => x.2.1) h2
        exact this.symm
      have hds : ds = ds2 := by
        have := congrArg (fun (x : List String × List (List Cell) × List Nat) => x.2.2) h2
        exact this.symm
      constructor
      · rw [hrw]
        exact setColumn_snd_length _ _ _ _
      · rw [hds, allDates_length hda, List.length_map, hrw]

theorem processOk (f : CsvFile) (plan : FailPlan) (now bs : Nat) (s : SysState (List Cell))
    {hdr : List String} {rows2 : List (List Cell)} {ds : List Nat} {ts : List (Key × List Cell)}
    (hne : f.rows ≠ [])
    (htr : transformed f = some (hdr, rows2, ds))
    (hcols : hasCols hdr = true)
    (hts : mapO (tupleOf hdr) (rows2.zip ds) = some ts)
    (hconn : plan.connectFails = false)
    (hstmt : ∀ j, j ≤ (chunksOf bs (rows2.zip ds)).length + 1 → stmtFails plan j = false) :
    process_csv_file f plan now bs s =
      ({ s with
          data := applyReplace s.data ts
          meta := upsertMeta s.meta (tickerOfFilename f.name) (minL ds) (maxL ds)
            rows2.length now
          fs := moveFile s.fs f.name false }, true) := by
  have hie : f.rows.isEmpty = false := by
    cases hr : f.rows with
    | nil => exact absurd hr hne
    | cons a l => rfl
  have hdb : dbPhase hdr plan 0 (chunksOf bs (rows2.zip ds)) s.data =
      some (applyReplace s.data ts) := by
    apply dbPhase_ok hcols _ 0 _ _ (by rw [chunksOf_flatten]; exact hts)
    intro j hj
    simpa using hstmt j (by omega)
  have hsm : stmtFails plan (chunksOf bs (rows2.zip ds)).length = false :=
    hstmt _ (by omega)
  have hsm2 : stmtFails plan ((chunksOf bs (rows2.zip ds)).length + 1) = false :=
    hstmt _ (by omega)
  unfold process_csv_file tryBody
  simp only [hie, Bool.false_eq_true, if_false, htr, hconn, hdb, hsm, hsm2]

theorem processFail (f : CsvFile) (plan : FailPlan) (now bs : Nat) (s : SysState (List Cell))
    {hdr : List String} {rows2 : List (List Cell)} {ds : List Nat} {ts : List (Key × List Cell)}
    (hne : f.rows ≠ [])
    (htr : transformed f = some (hdr, rows2, ds))
    (hcols : hasCols hdr = true)
    (hts : mapO (tupleOf hdr) (rows2.zip ds) = some ts)
    (hconn : plan.connectFails = false)
    (hstmt : ∃ j, j ≤ (chunksOf bs (rows2.zip ds)).length + 1 ∧ stmtFails plan j = true) :
    process_csv_file f plan now bs s =
      ({ s with
          fs := moveFile s.fs f.name true
          leakedConns := s.leakedConns + 1 }, false) := by
  have hie : f.rows.isEmpty = false := by
    cases hr : f.rows with
    | nil => exact absurd hr hne
    | cons a l => rfl
  unfold process_csv_file tryBody
  by_cases hex : ∃ j, j < (chunksOf bs (rows2.zip ds)).length ∧ stmtFails plan j = true
  · have hdb : dbPhase hdr plan 0 (chunksOf bs (rows2.zip ds)) s.data = none := by
      apply dbPhase_fail hcols _ 0 _ ts (by rw [chunksOf_flatten]; exact hts)
      obtain ⟨j, hj, hjf⟩ := hex
      exact ⟨j, hj, by simpa using hjf⟩
    simp only [hie, Bool.false_eq_true, if_false, htr, hconn, hdb]
  · have hok : ∀ j, j < (chunksOf bs (rows2.zip ds)).length → stmtFails plan j = false := by
      intro j hj
      by_contra hcon
      exact hex ⟨j, hj, by simpa using hcon⟩
    have hdb : dbPhase hdr plan 0 (chunksOf bs (rows2.zip ds)) s.data =
        some (applyReplace s.data ts) := by
      apply dbPhase_ok hcols _ 0 _ _ (by rw [chunksOf_flatten]; exact hts)
      intro j hj
      simpa using hok j hj
    obtain ⟨j, hj, hjf⟩ := hstmt
    have hj2 : j = (chunksOf bs (rows2.zip ds)).length ∨
        j = (chunksOf bs (rows2.zip ds)).length + 1 := by
      by_cases hlt : j < (chunksOf bs (rows2.zip ds)).length
      · rw [hok j hlt] at hjf
        cases hjf
      · omega
    rcases hj2 with hj2 | hj2
    · subst hj2
      simp only [hie, Bool.false_eq_true, if_false, htr, hconn, hdb, hjf, if_true]
    · subst hj2
      cases hn : stmtFails plan (chunksOf bs (rows2.zip ds)).length with
      | true => simp only [hie, Bool.false_eq_true, if_false, htr, hconn, hdb, hn, if_true]
      | false =>
        simp only [hie, Bool.false_eq_true, if_false, htr, hconn, hdb, hn, hjf, if_true]

theorem processConnFail (f : CsvFile) (plan : FailPlan) (now bs : Nat)
    (s : SysState (List Cell))
    {hdr : List String} {rows2 : List (List Cell)} {ds : List Nat}
    (hne : f.rows ≠ [])
    (htr : transformed f = some (hdr, rows2, ds))
    (hconn : plan.connectFails = true) :
    process_csv_file f plan now bs s =
      ({ s with fs := moveFile s.fs f.name true }, false) := by
  have hie : f.rows.isEmpty = false := by
    cases hr : f.rows with
    | nil => exact absurd hr hne
    | cons a l => rfl
  unfold process_csv_file tryBody
  simp only [hie, Bool.false_eq_true, if_false, htr, hconn, if_true]

theorem processTransformFail (f : CsvFile) (plan : FailPlan) (now bs : Nat)
    (s : SysState (List Cell))
    (hne : f.rows ≠ [])
    (htr : transformed f = none) :
    process_csv_file f plan now bs s =
      ({ s with fs := moveFile s.fs f.name true }, false) := by
  have hie : f.rows.isEmpty = false := by
    cases hr : f.rows with
    | nil => exact absurd hr hne
    | cons a l => rfl
  unfold process_csv_file tryBody
  simp only [hie, Bool.false_eq_true, if_false, htr]

theorem processEmpty (f : CsvFile) (plan : FailPlan) (now bs : Nat)
    (s : SysState (List Cell)) (hemp : f.rows = []) :
    process_csv_file f plan now bs s = (s, false) := by
  have hie : f.rows.isEmpty = true := by rw [hemp]; rfl
  unfold process_csv_file tryBody
  simp only [hie, if_true]

end Tiingo

theorem mem_addUnique_self (l : List String) (x : String) : x ∈ addUnique l x := by
  unfold addUnique
  by_cases h : x ∈ l
  · rw [if_pos h]; exact h
  · rw [if_neg h]; simp

theorem head?_take {α : Type} (n : Nat) (l : List α) : (l.take (n + 1)).head? = l.head? := by
  cases l <;> rfl

/-! ### Claim theorems -/

/-- C4: `validate_csv` is a total boolean function (it never propagates
an exception); it returns `false` whenever one of the required columns
date, open, high, low, close, volume is missing from the header, or the
first data row carries a date string that does not parse as a calendar
date; and it depends only on the first five data rows of the file, so it
reads a bounded prefix regardless of file size. -/
theorem validate_csv_contract (f : CsvFile) :
    ((∃ c ∈ requiredCols, f.header.contains c = false) → validate_csv f = false) ∧
    (∀ r, f.rows.head? = some r → ∀ i, colIdx f.header "date" = some i →
      ∀ s0, getCell r i = some s0 → parseDate s0 = none → validate_csv f = false) ∧
    validate_csv f = validate_csv ⟨f.name, f.header, f.rows.take 5⟩ := by
  refine ⟨?_, ?_, ?_⟩
  · intro hc
    obtain ⟨c, hc, hcon⟩ := hc
    unfold validate_csv
    rw [if_pos]
    rw [List.any_eq_true]
    exact ⟨c, hc, by rw [hcon]; rfl⟩
  · intro r hr i hi s0 hs0 hp
    unfold validate_csv
    by_cases hany : (requiredCols.any fun c => !f.header.contains c) = true
    · rw [if_pos hany]
    · rw [if_neg hany]
      have h5 : (f.rows.take 5).head? = some r := by
        rw [show (5 : Nat) = 4 + 1 from rfl, head?_take]
        exact hr
      simp only [h5, hi]
      rw [hs0]
      show (toDatetime (some s0)).isSome = false
      simp only [toDatetime, hp]
      rfl
  · show validate_csv f = validate_csv ⟨f.name, f.header, f.rows.take 5⟩
    unfold validate_csv
    rw [show (f.rows.take 5).take 5 = f.rows.take 5 from by
      rw [List.take_take, Nat.min_self]]

/-- Witness for C4 at concrete files: a file missing the close column
fails validation, and a file whose first date does not parse fails
validation. -/
theorem validate_csv_contract_witness :
    validate_csv ⟨"a.csv", ["date", "open", "high", "low", "volume"],
      [[some "2024-01-02", some "1", some "2", some "1", some "3"]]⟩ = false ∧
    validate_csv ⟨"b.csv", ["date", "open", "high", "low", "close", "volume"],
      [[some "notadate", some "1", some "2", some "1", some "1", some "3"]]⟩ = false :=
  ⟨(validate_csv_contract _).1 ⟨"close", by decide, by decide⟩,
   (validate_csv_contract _).2.1 _ rfl 0 rfl "notadate" rfl (by decide)⟩

theorem runAll_count (plans : String → FailPlan) (now bs : Nat) :
    ∀ (l : List CsvFile) (s : SysState (List Cell)) (suc fl : Nat),
    (Tiingo.runAll plans now bs l s suc fl).2.1 + (Tiingo.runAll plans now bs l s suc fl).2.2 =
      suc + fl + l.length := by
  intro l
  induction l with
  | nil => intro s suc fl; rfl
  | cons f rest ih =>
    intro s suc fl
    simp only [Tiingo.runAll]
    cases hr2 : (Tiingo.process_csv_file f (plans f.name) now bs s).2 with
    | true =>
      rw [if_pos rfl, if_pos rfl, ih]
      simp only [List.length_cons]
      omega
    | false =>
      rw [if_neg (by simp), if_neg (by simp), ih]
      simp only [List.length_cons]
      omega


/-- A complete Tiingo header as fixture for concrete witnesses. -/
def tnFullHeader : List String :=
  ["date", "open", "high", "low", "close", "volume", "adjOpen", "adjHigh",
   "adjLow", "adjClose", "adjVolume", "divCash", "splitFactor"]

/-- A fixture data row with a given date string. -/
def tnRow (d : String) : List Cell :=
  [some d, some "1", some "2", some "1", some "1", some "3", some "1",
   some "2", some "1", some "1", some "3", some "0", some "1"]

/-- A fixture file with two rows. -/
def fileAapl : CsvFile :=
  ⟨"aapl.csv", tnFullHeader, [tnRow "2024-01-02", tnRow "2024-01-03"]⟩

/-- A fixture initial state with the fixture file in the source
directory and empty tables. -/
def sEmpty : SysState (List Cell) := ⟨⟨["aapl.csv"], [], []⟩, emptyTable, [], 0⟩

/-- C1: the batch inserts and the metadata upsert of one file commit in
one transaction.  If any database error occurs during processing (the
connection attempt, any batch statement, the metadata statement or the
commit itself), the database is unchanged (no rows from the file, the
metadata untouched) and the file is routed to failed, not processed; if
no error occurs, the transaction commits and then both the rows of the
file and the metadata update are present, and the file is moved to
processed. -/
theorem upsert_writer_transactional (f : CsvFile) (plan : FailPlan) (now bs : Nat)
    (s : SysState (List Cell))
    {hdr : List String} {rows2 : List (List Cell)} {ds : List Nat}
    {ts : List (Key × List Cell)}
    (hne : f.rows ≠ [])
    (htr : Tiingo.transformed f = some (hdr, rows2, ds))
    (hcols : Tiingo.hasCols hdr = true)
    (hts : mapO (Tiingo.tupleOf hdr) (rows2.zip ds) = some ts)
    (hnp : f.name ∉ s.fs.processedD) :
    ((plan.connectFails = true ∨
        ∃ j, j ≤ (chunksOf bs (rows2.zip ds)).length + 1 ∧ stmtFails plan j = true) →
      (Tiingo.process_csv_file f plan now bs s).1.data = s.data ∧
      (Tiingo.process_csv_file f plan now bs s).1.meta = s.meta ∧
      f.name ∈ (Tiingo.process_csv_file f plan now bs s).1.fs.failedD ∧
      f.name ∉ (Tiingo.process_csv_file f plan now bs s).1.fs.processedD ∧
      (Tiingo.process_csv_file f plan now bs s).2 = false) ∧
    (plan.connectFails = false →
      (∀ j, j ≤ (chunksOf bs (rows2.zip ds)).length + 1 → stmtFails plan j = false) →
      (Tiingo.process_csv_file f plan now bs s).1.data = applyReplace s.data ts ∧
      (Tiingo.process_csv_file f plan now bs s).1.meta =
        upsertMeta s.meta (tickerOfFilename f.name) (minL ds) (maxL ds) rows2.length now ∧
      (∀ kv ∈ ts, kv.1 ∈ (Tiingo.process_csv_file f plan now bs s).1.data.keys) ∧
      f.name ∈ (Tiingo.process_csv_file f plan now bs s).1.fs.processedD ∧
      (Tiingo.process_csv_file f plan now bs s).2 = true) := by
  constructor
  · intro herr
    cases hcf : plan.connectFails with
    | true =>
      rw [Tiingo.processConnFail f plan now bs s hne htr hcf]
      exact ⟨rfl, rfl, mem_addUnique_self _ _, hnp, rfl⟩
    | false =>
      rcases herr with herr | herr
      · rw [herr] at hcf
        cases hcf
      · rw [Tiingo.processFail f plan now bs s hne htr hcols hts hcf herr]
        exact ⟨rfl, rfl, mem_addUnique_self _ _, hnp, rfl⟩
  · intro hcf hok
    rw [Tiingo.processOk f plan now bs s hne htr hcols hts hcf hok]
    refine ⟨rfl, rfl, ?_, mem_addUnique_self _ _, rfl⟩
    intro kv hkv
    exact mem_keys_applyReplace_of_mem hkv

/-- Witness for C1 at the fixture file with one-row batches: a failure
in the second batch statement rolls everything back and routes the file
to failed; the fault-free plan commits rows and metadata and routes the
file to processed. -/
theorem upsert_writer_transactional_witness :
    ((Tiingo.process_csv_file fileAapl ⟨false, [1]⟩ 7 1 sEmpty).1.data = sEmpty.data ∧
      (Tiingo.process_csv_file fileAapl ⟨false, [1]⟩ 7 1 sEmpty).1.meta = sEmpty.meta ∧
      "aapl.csv" ∈ (Tiingo.process_csv_file fileAapl ⟨false, [1]⟩ 7 1 sEmpty).1.fs.failedD ∧
      "aapl.csv" ∉ (Tiingo.process_csv_file fileAapl ⟨false, [1]⟩ 7 1 sEmpty).1.fs.processedD ∧
      (Tiingo.process_csv_file fileAapl ⟨false, [1]⟩ 7 1 sEmpty).2 = false) ∧
    ((Tiingo.process_csv_file fileAapl noFail 7 1 sEmpty).2 = true ∧
      "aapl.csv" ∈ (Tiingo.process_csv_file fileAapl noFail 7 1 sEmpty).1.fs.processedD) := by
  constructor
  · exact (upsert_writer_transactional fileAapl ⟨false, [1]⟩ 7 1 sEmpty (by decide)
      rfl rfl rfl (by decide)).1 (Or.inr ⟨1, by decide, by decide⟩)
  · have h := (upsert_writer_transactional fileAapl noFail 7 1 sEmpty (by decide)
      rfl rfl rfl (by decide)).2 rfl (fun j _ => rfl)
    exact ⟨h.2.2.2.2, h.2.2.2.1⟩

/-- C3: on a successful ingest the metadata upsert is issued once with
the file date span and row count; when the entity already has a metadata
row, the stored row becomes `min` of first dates, `max` of last dates,
the incoming row count replaces the stored one, and `last_updated` is
refreshed to the current time; on first ingest the row is created with
the file values. -/
theorem metadata_reconciliation (f : CsvFile) (plan : FailPlan) (now bs : Nat)
    (s : SysState (List Cell))
    {hdr : List String} {rows2 : List (List Cell)} {ds : List Nat}
    {ts : List (Key × List Cell)}
    (hne : f.rows ≠ [])
    (htr : Tiingo.transformed f = some (hdr, rows2, ds))
    (hcols : Tiingo.hasCols hdr = true)
    (hts : mapO (Tiingo.tupleOf hdr) (rows2.zip ds) = some ts)
    (hconn : plan.connectFails = false)
    (hstmt : ∀ j, j ≤ (chunksOf bs (rows2.zip ds)).length + 1 → stmtFails plan j = false) :
    (Tiingo.process_csv_file f plan now bs s).2 = true ∧
    (Tiingo.process_csv_file f plan now bs s).1.meta =
      upsertMeta s.meta (tickerOfFilename f.name) (minL ds) (maxL ds) rows2.length now ∧
    (∀ r0, findMeta s.meta (tickerOfFilename f.name) = some r0 →
      findMeta (Tiingo.process_csv_file f plan now bs s).1.meta (tickerOfFilename f.name) =
        some ⟨r0.ticker, min r0.first_date (minL ds), max r0.last_date (maxL ds),
          rows2.length, now⟩) ∧
    (findMeta s.meta (tickerOfFilename f.name) = none →
      (Tiingo.process_csv_file f plan now bs s).1.meta =
        s.meta ++ [⟨tickerOfFilename f.name, minL ds, maxL ds, rows2.length, now⟩]) := by
  rw [Tiingo.processOk f plan now bs s hne htr hcols hts hconn hstmt]
  refine ⟨rfl, rfl, ?_, ?_⟩
  · intro r0 hr0
    show findMeta (upsertMeta s.meta (tickerOfFilename f.name) (minL ds) (maxL ds)
      rows2.length now) (tickerOfFilename f.name) = _
    rw [findMeta_upsertMeta, hr0]
  · intro hnone
    show upsertMeta s.meta (tickerOfFilename f.name) (minL ds) (maxL ds)
      rows2.length now = _
    exact upsertMeta_of_not_found _ _ _ _ hnone

/-- Witness for C3: ingesting the fixture file over a metadata table that
already holds an AAPL row with a wider first date and a smaller last
date yields the merged row with the replaced count; over an empty
metadata table the file row is appended. -/
theorem metadata_reconciliation_witness :
    findMeta (Tiingo.process_csv_file fileAapl noFail 9 1
        ⟨⟨["aapl.csv"], [], []⟩, emptyTable,
          [⟨"AAPL", dateCode 2023 5 7, dateCode 2024 1 2, 44, 3⟩], 0⟩).1.meta "AAPL" =
      some ⟨"AAPL", dateCode 2023 5 7, dateCode 2024 1 3, 2, 9⟩ ∧
    (Tiingo.process_csv_file fileAapl noFail 9 1 sEmpty).1.meta =
      [⟨"AAPL", dateCode 2024 1 2, dateCode 2024 1 3, 2, 9⟩] := by
  constructor
  · have h := (metadata_reconciliation fileAapl noFail 9 1
      ⟨⟨["aapl.csv"], [], []⟩, emptyTable,
        [⟨"AAPL", dateCode 2023 5 7, dateCode 2024 1 2, 44, 3⟩], 0⟩
      (by decide) rfl rfl rfl rfl (fun j _ => rfl)).2.2.1
      ⟨"AAPL", dateCode 2023 5 7, dateCode 2024 1 2, 44, 3⟩ (by decide)
    have h2 : tickerOfFilename fileAapl.name = "AAPL" := by decide
    rw [h2] at h
    rw [h]
    decide
  · have h := (metadata_reconciliation fileAapl noFail 9 1 sEmpty
      (by decide) rfl rfl rfl rfl (fun j _ => rfl)).2.2.2 (by decide)
    rw [h]
    decide

/-- C2: ingestion of the Tiingo loader is idempotent.  Processing the
same valid file twice (with no database faults) leaves the data table
exactly as after the first ingest; the unique key constraint is
preserved, so there is never a duplicate `(entity_key, date)` row; value
columns follow last-write-wins (the stored value under a key is the last
tuple the file assigned to it); and the metadata row of the entity holds
`total_rows` equal to the row count of the file, not doubled. -/
theorem ingest_idempotent (f : CsvFile) (now1 now2 bs : Nat) (s : SysState (List Cell))
    {hdr : List String} {rows2 : List (List Cell)} {ds : List Nat}
    {ts : List (Key × List Cell)}
    (hne : f.rows ≠ [])
    (htr : Tiingo.transformed f = some (hdr, rows2, ds))
    (hcols : Tiingo.hasCols hdr = true)
    (hts : mapO (Tiingo.tupleOf hdr) (rows2.zip ds) = some ts)
    (hnodup : s.data.keys.Nodup) :
    (Tiingo.process_csv_file f noFail now2 bs
        (Tiingo.process_csv_file f noFail now1 bs s).1).1.data =
      (Tiingo.process_csv_file f noFail now1 bs s).1.data ∧
    (Tiingo.process_csv_file f noFail now1 bs s).1.data.keys.Nodup ∧
    (Tiingo.process_csv_file f noFail now2 bs
        (Tiingo.process_csv_file f noFail now1 bs s).1).1.data.keys.Nodup ∧
    (∀ q v, lastAssign ts q = some v →
      (Tiingo.process_csv_file f noFail now1 bs s).1.data.valsAt q = some v) ∧
    (∃ r, findMeta (Tiingo.process_csv_file f noFail now2 bs
        (Tiingo.process_csv_file f noFail now1 bs s).1).1.meta
        (tickerOfFilename f.name) = some r ∧ r.total_rows = f.rows.length) := by
  have h1 := Tiingo.processOk f noFail now1 bs s hne htr hcols hts rfl (fun j _ => rfl)
  rw [h1]
  have h2 := Tiingo.processOk f noFail now2 bs
    ({ s with
        data := applyReplace s.data ts
        meta := upsertMeta s.meta (tickerOfFilename f.name) (minL ds) (maxL ds)
          rows2.length now1
        fs := moveFile s.fs f.name false }) hne htr hcols hts rfl (fun j _ => rfl)
  rw [h2]
  refine ⟨applyReplace_idem _ _, nodup_keys_applyReplace hnodup,
    nodup_keys_applyReplace (nodup_keys_applyReplace hnodup), ?_, ?_⟩
  · intro q v hqv
    rw [valsAt_applyReplace, hqv]
  · have hlen : rows2.length = f.rows.length := (Tiingo.transformed_len htr).1
    rw [findMeta_upsertMeta]
    cases hfm : findMeta (upsertMeta s.meta (tickerOfFilename f.name) (minL ds)
        (maxL ds) rows2.length now1) (tickerOfFilename f.name) with
    | some r0 => exact ⟨_, rfl, by rw [← hlen]⟩
    | none => exact ⟨_, rfl, by rw [← hlen]⟩

/-- Witness for C2: processing the fixture file twice from the empty
state leaves the data table of the first ingest unchanged, with
duplicate-free keys and a metadata row counting two rows. -/
theorem ingest_idempotent_witness :
    (Tiingo.process_csv_file fileAapl noFail 2 1
        (Tiingo.process_csv_file fileAapl noFail 1 1 sEmpty).1).1.data =
      (Tiingo.process_csv_file fileAapl noFail 1 1 sEmpty).1.data ∧
    (∃ r, findMeta (Tiingo.process_csv_file fileAapl noFail 2 1
        (Tiingo.process_csv_file fileAapl noFail 1 1 sEmpty).1).1.meta
        (tickerOfFilename fileAapl.name) = some r ∧ r.total_rows = 2) := by
  have h := ingest_idempotent fileAapl 1 2 1 sEmpty (by decide) rfl rfl rfl (by decide)
  exact ⟨h.1, h.2.2.2.2⟩

theorem validate_rows_ne {f : CsvFile} (h : validate_csv f = true) : f.rows ≠ [] := by
  intro hem
  unfold validate_csv at h
  cases hany : (requiredCols.any fun c => !f.header.contains c) with
  | true => rw [if_pos hany] at h; cases h
  | false =>
    rw [if_neg (by rw [hany]; exact Bool.false_ne_true)] at h
    rw [hem] at h
    cases h

theorem tryBody_ne_empty (f : CsvFile) (plan : FailPlan) (data : Table (List Cell))
    (meta : List MetaRow) (now bs : Nat) (hne : f.rows ≠ []) :
    Tiingo.tryBody f plan data meta now bs ≠ TryResult.emptyFile := by
  have hie : f.rows.isEmpty = false := by
    cases hr : f.rows with
    | nil => exact absurd hr hne
    | cons a l => rfl
  intro hcon
  unfold Tiingo.tryBody at hcon
  simp only [hie, Bool.false_eq_true, if_false] at hcon
  cases htr : Tiingo.transformed f with
  | none =>
    simp only [htr] at hcon
    exact TryResult.noConfusion hcon
  | some tri =>
    obtain ⟨hdr, rows2, ds⟩ := tri
    simp only [htr] at hcon
    cases hc : plan.connectFails with
    | true => simp [hc] at hcon
    | false =>
      simp only [hc, Bool.false_eq_true, if_false] at hcon
      cases hdb : Tiingo.dbPhase hdr plan 0 (chunksOf bs (rows2.zip ds)) data with
      | none =>
        simp only [hdb] at hcon
        exact TryResult.noConfusion hcon
      | some d2 =>
        simp only [hdb] at hcon
        cases h1 : stmtFails plan (chunksOf bs (rows2.zip ds)).length with
        | true => simp [h1] at hcon
        | false =>
          simp only [h1, Bool.false_eq_true, if_false] at hcon
          cases h2 : stmtFails plan ((chunksOf bs (rows2.zip ds)).length + 1) with
          | true => simp [h2] at hcon
          | false =>
            simp only [h2, Bool.false_eq_true, if_false] at hcon
            exact TryResult.noConfusion hcon

theorem process_source (f : CsvFile) (plan : FailPlan) (now bs : Nat)
    (s : SysState (List Cell)) (hne : f.rows ≠ []) :
    (Tiingo.process_csv_file f plan now bs s).1.fs.source =
      s.fs.source.filter (fun n => n ≠ f.name) ∧
    (f.name ∈ (Tiingo.process_csv_file f plan now bs s).1.fs.processedD ∨
     f.name ∈ (Tiingo.process_csv_file f plan now bs s).1.fs.failedD) := by
  unfold Tiingo.process_csv_file
  cases htb : Tiingo.tryBody f plan s.data s.meta now bs with
  | emptyFile => exact absurd htb (tryBody_ne_empty f plan s.data s.meta now bs hne)
  | exnNoConn => exact ⟨rfl, Or.inr (mem_addUnique_self _ _)⟩
  | exnConnOpen => exact ⟨rfl, Or.inr (mem_addUnique_self _ _)⟩
  | ok d2 m2 => exact ⟨rfl, Or.inl (mem_addUnique_self _ _)⟩

theorem process_source_eqOr (f : CsvFile) (plan : FailPlan) (now bs : Nat)
    (s : SysState (List Cell)) :
    (Tiingo.process_csv_file f plan now bs s).1.fs.source = s.fs.source ∨
    (Tiingo.process_csv_file f plan now bs s).1.fs.source =
      s.fs.source.filter (fun n => n ≠ f.name) := by
  unfold Tiingo.process_csv_file
  cases Tiingo.tryBody f plan s.data s.meta now bs with
  | emptyFile => exact Or.inl rfl
  | exnNoConn => exact Or.inr rfl
  | exnConnOpen => exact Or.inr rfl
  | ok d2 m2 => exact Or.inr rfl

theorem process_source_keep {f : CsvFile} {plan : FailPlan} {now bs : Nat}
    {s : SysState (List Cell)} {x : String} (hx : x ∈ s.fs.source) (hne : x ≠ f.name) :
    x ∈ (Tiingo.process_csv_file f plan now bs s).1.fs.source := by
  rcases process_source_eqOr f plan now bs s with h | h
  · rw [h]; exact hx
  · rw [h]
    rw [List.mem_filter]
    exact ⟨hx, by simp [hne]⟩

theorem process_source_nonmem {f : CsvFile} {plan : FailPlan} {now bs : Nat}
    {s : SysState (List Cell)} {x : String} (hx : x ∉ s.fs.source) :
    x ∉ (Tiingo.process_csv_file f plan now bs s).1.fs.source := by
  rcases process_source_eqOr f plan now bs s with h | h
  · rw [h]; exact hx
  · rw [h]
    intro hcon
    exact hx (List.mem_filter.mp hcon).1

theorem runAll_source_preserve (plans : String → FailPlan) (now bs : Nat) :
    ∀ (l : List CsvFile) (s : SysState (List Cell)) (suc fl : Nat) (x : String),
    x ∈ s.fs.source → (∀ f ∈ l, f.name ≠ x) →
    x ∈ (Tiingo.runAll plans now bs l s suc fl).1.fs.source := by
  intro l
  induction l with
  | nil => intro s suc fl x hx _; exact hx
  | cons g rest ih =>
    intro s suc fl x hx hl
    simp only [Tiingo.runAll]
    apply ih
    · exact process_source_keep hx
        (fun h => hl g (List.mem_cons_self _ _) h.symm)
    · intro f hf
      exact hl f (List.mem_cons_of_mem _ hf)

theorem runAll_source_nonmem (plans : String → FailPlan) (now bs : Nat) :
    ∀ (l : List CsvFile) (s : SysState (List Cell)) (suc fl : Nat) (x : String),
    x ∉ s.fs.source → x ∉ (Tiingo.runAll plans now bs l s suc fl).1.fs.source := by
  intro l
  induction l with
  | nil => intro s suc fl x hx; exact hx
  | cons g rest ih =>
    intro s suc fl x hx
    simp only [Tiingo.runAll]
    exact ih _ _ _ x (process_source_nonmem hx)

theorem runAll_source_removed (plans : String → FailPlan) (now bs : Nat) :
    ∀ (l : List CsvFile) (s : SysState (List Cell)) (suc fl : Nat) (f : CsvFile),
    f ∈ l → f.rows ≠ [] →
    f.name ∉ (Tiingo.runAll plans now bs l s suc fl).1.fs.source := by
  intro l
  induction l with
  | nil => intro s suc fl f hf; cases hf
  | cons g rest ih =>
    intro s suc fl f hf hne
    simp only [Tiingo.runAll]
    rcases List.mem_cons.mp hf with hf | hf
    · subst hf
      apply runAll_source_nonmem
      rw [(process_source f (plans f.name) now bs s hne).1]
      intro hcon
      have := (List.mem_filter.mp hcon).2
      simp at this
    · exact ih _ _ _ f hf hne

/-- A fixture file whose header misses the required close column. -/
def fileNoClose : CsvFile :=
  ⟨"bad.csv", ["date", "open", "high", "low", "volume"],
   [[some "2024-01-02", some "1", some "2", some "1", some "3"]]⟩

/-- C5 counterexample: in batch mode a file that fails up-front
validation is only skipped; after `load_all_files` it is still in the
source directory and is in neither the processed nor the failed
directory, refuting the claim that every discovered file ends up
relocated to exactly one of processed or failed in batch mode. -/
theorem file_relocation_counterexample :
    validate_csv fileNoClose = false ∧
    (Tiingo.load_all_files [fileNoClose] (fun _ => noFail) 0 1
      ⟨⟨["bad.csv"], [], []⟩, emptyTable, [], 0⟩).2.fs.source = ["bad.csv"] ∧
    (Tiingo.load_all_files [fileNoClose] (fun _ => noFail) 0 1
      ⟨⟨["bad.csv"], [], []⟩, emptyTable, [], 0⟩).2.fs.processedD = [] ∧
    (Tiingo.load_all_files [fileNoClose] (fun _ => noFail) 0 1
      ⟨⟨["bad.csv"], [], []⟩, emptyTable, [], 0⟩).2.fs.failedD = [] := by
  refine ⟨by decide, by decide, by decide, by decide⟩

/-- C5 amended: in batch mode every file that passes validation is
removed from the source directory, while a file that fails up-front
validation is only skipped and remains there; in queue mode
`process_csv_job` raises a `TypeError` while constructing `CSVLoader`
with the `table_name` and `metadata_table` keyword arguments, before any
validation, so a queued file is never relocated at all: the whole state,
including the source directory, is left untouched. -/
theorem file_relocation_amended :
    (∀ (f : CsvFile) (s : SysState (List Cell)),
      (process_csv_job (some f) s).1 = s ∧
      ∃ e, (process_csv_job (some f) s).2 = .error e) ∧
    (∀ (files : List CsvFile) (plans : String → FailPlan) (now bs : Nat)
      (s : SysState (List Cell)) (f : CsvFile), f ∈ files → validate_csv f = true →
      f.name ∉ (Tiingo.load_all_files files plans now bs s).2.fs.source) ∧
    (∀ (files : List CsvFile) (plans : String → FailPlan) (now bs : Nat)
      (s : SysState (List Cell)) (x : String), x ∈ s.fs.source →
      (∀ f ∈ files, validate_csv f = true → f.name ≠ x) →
      x ∈ (Tiingo.load_all_files files plans now bs s).2.fs.source) := by
  refine ⟨?_, ?_, ?_⟩
  · intro f s
    exact ⟨rfl, ⟨_, rfl⟩⟩
  · intro files plans now bs s f hf hv
    unfold Tiingo.load_all_files
    cases hfe : files.isEmpty with
    | true =>
      rw [List.isEmpty_iff] at hfe
      rw [hfe] at hf
      cases hf
    | false =>
      have hmem : f ∈ files.filter validate_csv := List.mem_filter.mpr ⟨hf, hv⟩
      have hvne : (files.filter validate_csv).isEmpty = false := by
        cases hl : files.filter validate_csv with
        | nil => rw [hl] at hmem; cases hmem
        | cons a l => rfl
      simp only [Bool.false_eq_true, if_false, hvne]
      exact runAll_source_removed plans now bs _ s 0 0 f hmem (validate_rows_ne hv)
  · intro files plans now bs s x hx hl
    unfold Tiingo.load_all_files
    cases hfe : files.isEmpty with
    | true => exact hx
    | false =>
      cases hvne : (files.filter validate_csv).isEmpty with
      | true => simp only [Bool.false_eq_true, if_false, hvne, if_true]; exact hx
      | false =>
        simp only [Bool.false_eq_true, if_false, hvne]
        apply runAll_source_preserve plans now bs _ s 0 0 x hx
        intro g hg
        have hg2 := List.mem_filter.mp hg
        exact hl g hg2.1 hg2.2

/-- Witness for C5 amended: a queued job on the fixture file leaves the
source directory untouched (the construction raises), and a batch run
over the valid fixture file removes it from the source directory. -/
theorem file_relocation_amended_witness :
    (process_csv_job (some fileAapl) sEmpty).1.fs.source = ["aapl.csv"] ∧
    "aapl.csv" ∉ (Tiingo.load_all_files [fileAapl] (fun _ => noFail) 0 1
      sEmpty).2.fs.source := by
  constructor
  · rw [(file_relocation_amended.1 fileAapl sEmpty).1]
    rfl
  · exact file_relocation_amended.2.1 [fileAapl] (fun _ => noFail) 0 1 sEmpty fileAapl
      (by decide) (by decide)

/-- A fixture header-only file (zero data rows). -/
def fileEmpty : CsvFile :=
  ⟨"empty.csv", ["date", "open", "high", "low", "close", "volume"], []⟩

/-- C6 counterexample: a header-only CSV in a batch run fails validation
and causes no database write, but it is not moved to the failed
directory; it stays in the source directory, refuting the claim that
such a file is always moved to failed. -/
theorem empty_file_counterexample :
    fileEmpty.rows = [] ∧
    (Tiingo.load_all_files [fileEmpty] (fun _ => noFail) 0 1
      ⟨⟨["empty.csv"], [], []⟩, emptyTable, [], 0⟩).2.fs.failedD = [] ∧
    (Tiingo.load_all_files [fileEmpty] (fun _ => noFail) 0 1
      ⟨⟨["empty.csv"], [], []⟩, emptyTable, [], 0⟩).2.fs.source = ["empty.csv"] ∧
    (Tiingo.load_all_files [fileEmpty] (fun _ => noFail) 0 1
      ⟨⟨["empty.csv"], [], []⟩, emptyTable, [], 0⟩).2.data.keys = [] ∧
    (Tiingo.load_all_files [fileEmpty] (fun _ => noFail) 0 1
      ⟨⟨["empty.csv"], [], []⟩, emptyTable, [], 0⟩).2.meta = [] := by
  refine ⟨rfl, by decide, by decide, by decide, by decide⟩

/-- C6 amended: a CSV with zero data rows always fails ingestion with no
database write of any kind, but it is nowhere moved to the failed
directory: in batch mode it is skipped at validation and remains in the
source directory; a direct `process_csv_file` call returns `False`
without relocating it; and in queue mode `process_csv_job` raises a
`TypeError` at the `CSVLoader` construction before validation, leaving
the whole state, the file included, untouched. -/
theorem empty_file_amended (f : CsvFile) (hemp : f.rows = []) :
    validate_csv f = false ∧
    (∀ (plan : FailPlan) (now bs : Nat) (s : SysState (List Cell)),
      Tiingo.process_csv_file f plan now bs s = (s, false)) ∧
    (∀ (s : SysState (List Cell)),
      (process_csv_job (some f) s).1 = s ∧
      ∃ e, (process_csv_job (some f) s).2 = .error e) ∧
    (∀ (plans : String → FailPlan) (now bs : Nat) (s : SysState (List Cell)),
      Tiingo.load_all_files [f] plans now bs s = (.ok none, s)) := by
  have hv : validate_csv f = false := by
    unfold validate_csv
    cases hany : (requiredCols.any fun c => !f.header.contains c) with
    | true => rfl
    | false =>
      rw [hemp]
      rfl
  refine ⟨hv, ?_, ?_, ?_⟩
  · intro plan now bs s
    exact Tiingo.processEmpty f plan now bs s hemp
  · intro s
    exact ⟨rfl, ⟨_, rfl⟩⟩
  · intro plans now bs s
    unfold Tiingo.load_all_files
    have hflt : List.filter validate_csv [f] = [] := by
      rw [List.filter_cons, hv]
      rfl
    simp only [hflt, List.isEmpty_cons, Bool.false_eq_true, if_false]
    rfl

/-- Witness for C6 amended at the fixture header-only file. -/
theorem empty_file_amended_witness :
    validate_csv fileEmpty = false ∧
    Tiingo.process_csv_file fileEmpty noFail 0 1 sEmpty = (sEmpty, false) ∧
    (process_csv_job (some fileEmpty)
      ⟨⟨["empty.csv"], [], []⟩, emptyTable, [], 0⟩).1.fs.source = ["empty.csv"] := by
  have h := empty_file_amended fileEmpty rfl
  refine ⟨h.1, h.2.1 noFail 0 1 sEmpty, ?_⟩
  rw [(h.2.2.1 ⟨⟨["empty.csv"], [], []⟩, emptyTable, [], 0⟩).1]

theorem mem_setField : ∀ {v : AVals} {c : String} {x : Cell} {p : String × Cell},
    p ∈ setField v c x → p = (c, x) ∨ p ∈ v := by
  intro v
  induction v with
  | nil =>
    intro c x p hp
    rw [setField] at hp
    rcases List.mem_singleton.mp hp with h
    exact Or.inl h
  | cons q rest ih =>
    intro c x p hp
    rw [setField] at hp
    by_cases hq : q.1 = c
    · rw [if_pos hq] at hp
      rcases List.mem_cons.mp hp with h | h
      · exact Or.inl (by rw [h, hq])
      · exact Or.inr (List.mem_cons_of_mem _ h)
    · rw [if_neg hq] at hp
      rcases List.mem_cons.mp hp with h | h
      · exact Or.inr (by rw [h]; exact List.mem_cons_self _ _)
      · rcases ih h with h2 | h2
        · exact Or.inl h2
        · exact Or.inr (List.mem_cons_of_mem _ h2)

theorem mem_mergeVals : ∀ {b a : AVals} {p : String × Cell},
    p ∈ mergeVals a b → p ∈ a ∨ p ∈ b := by
  intro b
  induction b with
  | nil => intro a p hp; exact Or.inl hp
  | cons q rest ih =>
    intro a p hp
    have hp2 : p ∈ mergeVals (setField a q.1 q.2) rest := hp
    rcases ih hp2 with h | h
    · rcases mem_setField h with h2 | h2
      · exact Or.inr (by rw [h2]; exact List.mem_cons_self _ _)
      · exact Or.inl h2
    · exact Or.inr (List.mem_cons_of_mem _ h)

theorem lookup_eq_none_of_fst_ne : ∀ {v : AVals} {c : String},
    (∀ p ∈ v, p.1 ≠ c) → v.lookup c = none := by
  intro v
  induction v with
  | nil => intro c _; rfl
  | cons q rest ih =>
    intro c h
    have hq : q.1 ≠ c := h q (List.mem_cons_self _ _)
    cases q with
    | mk a b =>
      have hba : (c == a) = false := beq_eq_false_iff_ne.mpr (fun h2 => hq h2.symm)
      simp only [List.lookup_cons, hba]
      exact ih (fun p hp => h p (List.mem_cons_of_mem _ hp))

theorem getField_eq_none_of_fst_ne {v : AVals} {c : String}
    (h : ∀ p ∈ v, p.1 ≠ c) : getField v c = none := by
  unfold getField
  rw [lookup_eq_none_of_fst_ne h]
  rfl

theorem get?_set_self : ∀ (l : List Cell) (i : Nat) (a : Cell),
    i < l.length → (l.set i a).get? i = some a := by
  intro l
  induction l with
  | nil => intro i a h; cases h
  | cons x xs ih =>
    intro i a h
    cases i with
    | zero => rfl
    | succ i2 =>
      rw [List.set_cons_succ]
      show (xs.set i2 a).get? i2 = some a
      exact ih i2 a (by simpa using Nat.lt_of_succ_lt_succ h)

theorem colIdx_lt : ∀ {hdr : List String} {c : String} {i : Nat},
    colIdx hdr c = some i → i < hdr.length := by
  intro hdr
  induction hdr with
  | nil => intro c i h; cases h
  | cons h0 t ih =>
    intro c i h
    rw [colIdx] at h
    by_cases h1 : h0 = c
    · rw [if_pos h1] at h
      injection h with h2
      rw [← h2]
      simp
    · rw [if_neg h1] at h
      cases h3 : colIdx t c with
      | none => rw [h3] at h; cases h
      | some i2 =>
        rw [h3] at h
        injection h with h2
        rw [← h2]
        have := ih h3
        simp only [List.length_cons]
        omega

theorem colIdx_append_self : ∀ {hdr : List String} {c : String},
    colIdx hdr c = none → colIdx (hdr ++ [c]) c = some hdr.length := by
  intro hdr
  induction hdr with
  | nil => intro c _; simp [colIdx]
  | cons h0 t ih =>
    intro c h
    rw [colIdx] at h
    by_cases h1 : h0 = c
    · rw [if_pos h1] at h; cases h
    · rw [if_neg h1] at h
      have h2 : colIdx t c = none := by
        cases h3 : colIdx t c with
        | none => rfl
        | some i => rw [h3] at h; cases h
      rw [List.cons_append, colIdx, if_neg h1, ih h2]
      rfl

theorem setColumn_cellOf {hdr : List String} {rows : List (List Cell)} {c : String}
    {v : Cell} (hwf : ∀ r ∈ rows, r.length = hdr.length) :
    ∀ r2 ∈ (setColumn hdr rows c v).2, cellOf (setColumn hdr rows c v).1 r2 c = v := by
  unfold setColumn
  cases hci : colIdx hdr c with
  | some i =>
    intro r2 hr2
    obtain ⟨r, hr, rfl⟩ := List.mem_map.mp hr2
    show ((colIdx hdr c).map (getCell (r.set i v))).join = v
    rw [hci]
    show getCell (r.set i v) i = v
    unfold getCell
    rw [get?_set_self r i v (by rw [hwf r hr]; exact colIdx_lt hci)]
    rfl
  | none =>
    intro r2 hr2
    obtain ⟨r, hr, rfl⟩ := List.mem_map.mp hr2
    show ((colIdx (hdr ++ [c]) c).map (getCell (r ++ [v]))).join = v
    rw [colIdx_append_self hci]
    show getCell (r ++ [v]) hdr.length = v
    unfold getCell
    rw [← hwf r hr, List.get?_concat_length]
    rfl

theorem applyMerge_append (t : Table AVals) (rs1 rs2 : List (Key × AVals)) :
    applyMerge t (rs1 ++ rs2) = applyMerge (applyMerge t rs1) rs2 :=
  List.foldl_append _ _ _ _

theorem applyMerge_valsAt_preserve (P : AVals → Prop) (hnil : P [])
    (hstep : ∀ a b, P a → P b → P (mergeVals a b)) :
    ∀ (rs : List (Key × AVals)) (t : Table AVals),
    (∀ q w, t.valsAt q = some w → P w) → (∀ kv ∈ rs, P kv.2) →
    ∀ q w, (applyMerge t rs).valsAt q = some w → P w := by
  intro rs
  induction rs with
  | nil => exact fun t ht _ => ht
  | cons kv rest ih =>
    intro t ht hrs q w hw
    have hkv : P kv.2 := hrs kv (List.mem_cons_self _ _)
    apply ih (upsertMerge t kv.1 kv.2) ?_ ?_ q w hw
    · intro q2 w2 hw2
      unfold upsertMerge at hw2
      by_cases hm : kv.1 ∈ t.keys
      · rw [if_pos hm] at hw2
        dsimp only at hw2
        by_cases hq : q2 = kv.1
        · rw [if_pos hq] at hw2
          injection hw2 with hw3
          rw [← hw3]
          apply hstep _ _ ?_ hkv
          cases hv : t.valsAt kv.1 with
          | none => exact hnil
          | some old => exact ht kv.1 old hv
        · rw [if_neg hq] at hw2
          exact ht q2 w2 hw2
      · rw [if_neg hm] at hw2
        dsimp only at hw2
        by_cases hq : q2 = kv.1
        · rw [if_pos hq] at hw2
          injection hw2 with hw3
          rw [← hw3]
          exact hkv
        · rw [if_neg hq] at hw2
          exact ht q2 w2 hw2
    · intro kv2 hkv2
      exact hrs kv2 (List.mem_cons_of_mem _ hkv2)

namespace Tiingo

theorem transformed_shape {f : CsvFile} {hdr : List String} {rows2 : List (List Cell)}
    {ds : List Nat} (h : transformed f = some (hdr, rows2, ds)) :
    hdr = (setColumn (renameHeader columnMap f.header) f.rows "ticker"
      (some (tickerOfFilename f.name))).1 ∧
    rows2 = (setColumn (renameHeader columnMap f.header) f.rows "ticker"
      (some (tickerOfFilename f.name))).2 := by
  simp only [transformed] at h
  cases hdi : colIdx (setColumn (renameHeader columnMap f.header) f.rows "ticker"
      (some (tickerOfFilename f.name))).1 "date" with
  | none =>
    simp only [hdi] at h
    exact Option.noConfusion h
  | some di =>
    simp only [hdi] at h
    cases hda : allDates (((setColumn (renameHeader columnMap f.header) f.rows "ticker"
        (some (tickerOfFilename f.name))).2).map (fun r => getCell r di)) with
    | none =>
      simp only [hda] at h
      exact Option.noConfusion h
    | some ds2 =>
      simp only [hda] at h
      injection h with h2
      constructor
      · exact (congrArg (fun (x : List String × List (List Cell) × List Nat) => x.1) h2).symm
      · exact (congrArg (fun (x : List String × List (List Cell) × List Nat) => x.2.1) h2).symm

theorem dbPhase_noCols {hdr : List String} {plan : FailPlan} (hcols : hasCols hdr = false) :
    ∀ {bsl : List (List (List Cell × Nat))} {i : Nat} {t : Table (List Cell)},
    bsl ≠ [] → dbPhase hdr plan i bsl t = none := by
  intro bsl i t hne
  cases bsl with
  | nil => exact absurd rfl hne
  | cons b rest => simp only [dbPhase, hcols, Bool.false_eq_true, if_false]

theorem processKeyError (f : CsvFile) (plan : FailPlan) (now bs : Nat)
    (s : SysState (List Cell))
    {hdr : List String} {rows2 : List (List Cell)} {ds : List Nat}
    (hne : f.rows ≠ [])
    (htr : transformed f = some (hdr, rows2, ds))
    (hcols : hasCols hdr = false)
    (hconn : plan.connectFails = false) :
    process_csv_file f plan now bs s =
      ({ s with
          fs := moveFile s.fs f.name true
          leakedConns := s.leakedConns + 1 }, false) := by
  have hie : f.rows.isEmpty = false := by
    cases hr : f.rows with
    | nil => exact absurd hr hne
    | cons a l => rfl
  have hzp : rows2.zip ds ≠ [] := by
    have h1 := transformed_len htr
    intro hcon
    have h2 := congrArg List.length hcon
    rw [List.length_zip, h1.2] at h2
    simp only [Nat.min_self, List.length_nil] at h2
    have : f.rows.length = 0 := by omega
    exact hne (List.length_eq_zero.mp (by rw [← h1.1] at this ⊢; omega))
  have hdb : dbPhase hdr plan 0 (chunksOf bs (rows2.zip ds)) s.data = none :=
    dbPhase_noCols hcols (chunksP_ne_nil _ hzp)
  unfold process_csv_file tryBody
  simp only [hie, Bool.false_eq_true, if_false, htr, hconn, hdb]

end Tiingo

namespace Fmp

theorem dbPhaseF_ok {hdr : List String} {plan : FailPlan} :
    ∀ (bsl : List (List (List Cell × Nat))) (i : Nat) (t : Table AVals)
      (ts : List (Key × AVals)),
    mapO (tupleOfF hdr) bsl.flatten = some ts →
    (∀ j, j < bsl.length → stmtFails plan (i + j) = false) →
    dbPhaseF hdr plan i bsl t = some (applyMerge t ts) := by
  intro bsl
  induction bsl with
  | nil =>
    intro i t ts hts _
    rw [List.flatten_nil, mapO] at hts
    injection hts with h2
    subst h2
    rfl
  | cons b rest ih =>
    intro i t ts hts hstmt
    rw [List.flatten_cons] at hts
    obtain ⟨r1, r2, h1, h2, rfl⟩ := mapO_append hts
    have hs0 : stmtFails plan i = false := by simpa using hstmt 0 (by simp)
    simp only [dbPhaseF, h1, hs0, Bool.false_eq_true, if_false]
    rw [applyMerge_append]
    apply ih (i + 1) _ r2 h2
    intro j hj
    have heq : i + 1 + j = i + (j + 1) := by omega
    rw [heq]
    exact hstmt (j + 1) (by simp only [List.length_cons]; omega)

theorem processOkF (f : CsvFile) (plan : FailPlan) (now bs : Nat) (s : SysState AVals)
    {hdr : List String} {rows2 : List (List Cell)} {ds : List Nat} {ts : List (Key × AVals)}
    (hne : f.rows ≠ [])
    (htr : transformedF f = some (hdr, rows2, ds))
    (hts : mapO (tupleOfF hdr) (rows2.zip ds) = some ts)
    (hconn : plan.connectFails = false)
    (hstmt : ∀ j, j ≤ (chunksOf bs (rows2.zip ds)).length + 1 → stmtFails plan j = false) :
    process_csv_fileF f plan now bs s =
      ({ s with
          data := applyMerge s.data ts
          meta := upsertMeta s.meta (tickerOfFilename f.name) (minL ds) (maxL ds)
            rows2.length now
          fs := moveFile s.fs f.name false }, true) := by
  have hie : f.rows.isEmpty = false := by
    cases hr : f.rows with
    | nil => exact absurd hr hne
    | cons a l => rfl
  have hdb : dbPhaseF hdr plan 0 (chunksOf bs (rows2.zip ds)) s.data =
      some (applyMerge s.data ts) := by
    apply dbPhaseF_ok _ 0 _ _ (by rw [chunksOf_flatten]; exact hts)
    intro j hj
    simpa using hstmt j (by omega)
  have hsm : stmtFails plan (chunksOf bs (rows2.zip ds)).length = false :=
    hstmt _ (by omega)
  have hsm2 : stmtFails plan ((chunksOf bs (rows2.zip ds)).length + 1) = false :=
    hstmt _ (by omega)
  unfold process_csv_fileF tryBodyF
  simp only [hie, Bool.false_eq_true, if_false, htr, hconn, hdb, hsm, hsm2]

theorem transformedF_shape_sym {f : CsvFile} {hdr : List String}
    {rows2 : List (List Cell)} {ds : List Nat}
    (hsym : (renameHeader columnMapF f.header).contains "symbol" = true)
    (h : transformedF f = some (hdr, rows2, ds)) :
    hdr = renameHeader columnMapF f.header ∧ rows2 = f.rows := by
  simp only [transformedF, hsym, if_true] at h
  cases hdi : colIdx (renameHeader columnMapF f.header) "date" with
  | none =>
    simp only [hdi] at h
    exact Option.noConfusion h
  | some di =>
    simp only [hdi] at h
    cases hda : allDates (f.rows.map (fun r => getCell r di)) with
    | none =>
      simp only [hda] at h
      exact Option.noConfusion h
    | some ds2 =>
      simp only [hda] at h
      injection h with h2
      constructor
      · exact (congrArg (fun (x : List String × List (List Cell) × List Nat) => x.1) h2).symm
      · exact (congrArg (fun (x : List String × List (List Cell) × List Nat) => x.2.1) h2).symm

theorem transformedF_shape_nosym {f : CsvFile} {hdr : List String}
    {rows2 : List (List Cell)} {ds : List Nat}
    (hsym : (renameHeader columnMapF f.header).contains "symbol" = false)
    (h : transformedF f = some (hdr, rows2, ds)) :
    hdr = (setColumn (renameHeader columnMapF f.header) f.rows "symbol"
      (some (tickerOfFilename f.name))).1 ∧
    rows2 = (setColumn (renameHeader columnMapF f.header) f.rows "symbol"
      (some (tickerOfFilename f.name))).2 := by
  simp only [transformedF, hsym, Bool.false_eq_true, if_false] at h
  cases hdi : colIdx (setColumn (renameHeader columnMapF f.header) f.rows "symbol"
      (some (tickerOfFilename f.name))).1 "date" with
  | none =>
    simp only [hdi] at h
    exact Option.noConfusion h
  | some di =>
    simp only [hdi] at h
    cases hda : allDates (((setColumn (renameHeader columnMapF f.header) f.rows "symbol"
        (some (tickerOfFilename f.name))).2).map (fun r => getCell r di)) with
    | none =>
      simp only [hda] at h
      exact Option.noConfusion h
    | some ds2 =>
      simp only [hda] at h
      injection h with h2
      constructor
      · exact (congrArg (fun (x : List String × List (List Cell) × List Nat) => x.1) h2).symm
      · exact (congrArg (fun (x : List String × List (List Cell) × List Nat) => x.2.1) h2).symm

theorem mem_includedValueCols {hdr : List String} {c : String}
    (h : c ∈ includedValueCols hdr) : hdr.contains c = true ∧ c ∈ allColumns := by
  unfold includedValueCols includedCols at h
  have h1 := List.mem_filter.mp h
  have h2 := List.mem_filter.mp h1.1
  exact ⟨h2.2, h2.1⟩

theorem tupleOfF_fields {hdr : List String} {rd : List Cell × Nat} {kv : Key × AVals}
    (h : tupleOfF hdr rd = some kv) : ∀ p ∈ kv.2, p.1 ∈ includedValueCols hdr := by
  unfold tupleOfF at h
  cases hc : cellOf hdr rd.1 "symbol" with
  | none =>
    simp only [hc] at h
    exact Option.noConfusion h
  | some t =>
    simp only [hc] at h
    injection h with h2
    rw [← h2]
    intro p hp
    obtain ⟨c, hcm, rfl⟩ := List.mem_map.mp hp
    exact hcm

theorem tupleOfF_key {hdr : List String} {rd : List Cell × Nat} {kv : Key × AVals}
    (h : tupleOfF hdr rd = some kv) :
    cellOf hdr rd.1 "symbol" = some kv.1.1 ∧ kv.1.2 = rd.2 := by
  unfold tupleOfF at h
  cases hc : cellOf hdr rd.1 "symbol" with
  | none =>
    simp only [hc] at h
    exact Option.noConfusion h
  | some t =>
    simp only [hc] at h
    injection h with h2
    subst h2
    exact ⟨rfl, rfl⟩

end Fmp

namespace Tiingo

theorem tupleOf_key {hdr : List String} {rd : List Cell × Nat} {kv : Key × List Cell}
    (h : tupleOf hdr rd = some kv) :
    cellOf hdr rd.1 "ticker" = some kv.1.1 ∧ kv.1.2 = rd.2 := by
  unfold tupleOf at h
  cases hc : cellOf hdr rd.1 "ticker" with
  | none =>
    simp only [hc] at h
    exact Option.noConfusion h
  | some t =>
    simp only [hc] at h
    injection h with h2
    subst h2
    exact ⟨rfl, rfl⟩

end Tiingo

/-- A fixture file that is valid for the validator but misses every
optional Tiingo column. -/
def fileNoAdj : CsvFile :=
  ⟨"aapl.csv", ["date", "open", "high", "low", "close", "volume"],
   [[some "2024-01-02", some "1", some "2", some "1", some "1", some "3"]]⟩

/-- C7 counterexample: for the Tiingo loader a valid file lacking the
optional adjusted columns does not succeed with nulls: the write stage
raises (the fixed `columns` list of `batch[columns]` names columns the
frame does not have), no database write happens and the file is routed
to failed. -/
theorem optional_columns_counterexample :
    validate_csv fileNoAdj = true ∧
    (Tiingo.process_csv_file fileNoAdj noFail 0 1 sEmpty).2 = false ∧
    "aapl.csv" ∈ (Tiingo.process_csv_file fileNoAdj noFail 0 1 sEmpty).1.fs.failedD ∧
    (Tiingo.process_csv_file fileNoAdj noFail 0 1 sEmpty).1.data.keys = [] ∧
    (Tiingo.process_csv_file fileNoAdj noFail 0 1 sEmpty).1.meta = [] := by
  refine ⟨by decide, by decide, by decide, by decide, by decide⟩

/-- C7 amended: in the Tiingo loader (`loader.py`) a valid file whose
header lacks any column of the fixed insert column list fails at the
write stage and is routed to failed; in the FMP loader
(`src/loader.py`) the insert column list is filtered to the columns
present, so such a file transforms and writes successfully, every tuple
it writes carries no value for the absent canonical column (the field
reads back NULL), only mapped columns are ever stored, and over an
empty table every stored row reads NULL for the absent column. -/
theorem optional_columns_amended :
    (∀ (f : CsvFile) (plan : FailPlan) (now bs : Nat) (s : SysState (List Cell))
      (hdr : List String) (rows2 : List (List Cell)) (ds : List Nat),
      f.rows ≠ [] → Tiingo.transformed f = some (hdr, rows2, ds) →
      Tiingo.hasCols hdr = false → plan.connectFails = false →
      Tiingo.process_csv_file f plan now bs s =
        ({ s with
            fs := moveFile s.fs f.name true
            leakedConns := s.leakedConns + 1 }, false)) ∧
    (∀ (f : CsvFile) (now bs : Nat) (s : SysState AVals)
      (hdr : List String) (rows2 : List (List Cell)) (ds : List Nat)
      (ts : List (Key × AVals)) (cc : String),
      f.rows ≠ [] → Fmp.transformedF f = some (hdr, rows2, ds) →
      mapO (Fmp.tupleOfF hdr) (rows2.zip ds) = some ts →
      hdr.contains cc = false →
      (Fmp.process_csv_fileF f noFail now bs s).2 = true ∧
      f.name ∈ (Fmp.process_csv_fileF f noFail now bs s).1.fs.processedD ∧
      (∀ kv ∈ ts, getField kv.2 cc = none) ∧
      (∀ kv ∈ ts, ∀ p ∈ kv.2, p.1 ∈ Fmp.allColumns) ∧
      (s.data = emptyTable →
        ∀ q w, (Fmp.process_csv_fileF f noFail now bs s).1.data.valsAt q = some w →
          getField w cc = none)) := by
  constructor
  · intro f plan now bs s hdr rows2 ds hne htr hcols hconn
    exact Tiingo.processKeyError f plan now bs s hne htr hcols hconn
  · intro f now bs s hdr rows2 ds ts cc hne htr hts hcc
    have hfield : ∀ kv ∈ ts, ∀ p ∈ kv.2, p.1 ∈ Fmp.includedValueCols hdr := by
      intro kv hkv
      obtain ⟨rd, _, htup⟩ := mapO_mem hts kv hkv
      exact Fmp.tupleOfF_fields htup
    have hne2 : ∀ kv ∈ ts, ∀ p ∈ kv.2, p.1 ≠ cc := by
      intro kv hkv p hp hcon
      have h1 := (Fmp.mem_includedValueCols (hfield kv hkv p hp)).1
      rw [hcon, hcc] at h1
      cases h1
    rw [Fmp.processOkF f noFail now bs s hne htr hts rfl (fun j _ => rfl)]
    refine ⟨rfl, mem_addUnique_self _ _, ?_, ?_, ?_⟩
    · intro kv hkv
      exact getField_eq_none_of_fst_ne (hne2 kv hkv)
    · intro kv hkv p hp
      exact (Fmp.mem_includedValueCols (hfield kv hkv p hp)).2
    · intro hempty q w hw
      apply getField_eq_none_of_fst_ne
      apply applyMerge_valsAt_preserve (fun v => ∀ p ∈ v, p.1 ≠ cc)
        (by intro p hp; cases hp)
        ?_ ts s.data ?_ (fun kv hkv => hne2 kv hkv) q w hw
      · intro a b ha hb p hp
        rcases mem_mergeVals hp with h | h
        · exact ha p h
        · exact hb p h
      · intro q2 w2 hw2
        rw [hempty] at hw2
        exact Option.noConfusion hw2

/-- Witness for C7 amended: the fixture file without optional columns
fails in the Tiingo loader, while the FMP loader ingests it successfully
and stores NULL for the absent vwap column. -/
theorem optional_columns_amended_witness :
    (Tiingo.process_csv_file fileNoAdj ⟨false, []⟩ 0 1 sEmpty).2 = false ∧
    (Fmp.process_csv_fileF fileNoAdj noFail 0 1
      ⟨⟨["aapl.csv"], [], []⟩, emptyTable, [], 0⟩).2 = true := by
  constructor
  · have h := optional_columns_amended.1 fileNoAdj ⟨false, []⟩ 0 1 sEmpty _ _ _
      (by decide) rfl rfl rfl
    rw [h]
  · have h := (optional_columns_amended.2 fileNoAdj 0 1
      ⟨⟨["aapl.csv"], [], []⟩, emptyTable, [], 0⟩ _ _ _ _ "vwap"
      (by decide) rfl rfl (by decide)).1
    exact h

/-- A fixture Tiingo file that carries its own ticker column with the
per-row value XYZ, under the file name aapl.csv. -/
def fileTicker : CsvFile :=
  ⟨"aapl.csv", tnFullHeader ++ ["ticker"], [tnRow "2024-01-02" ++ [some "XYZ"]]⟩

/-- A fixture FMP file that carries its own symbol column. -/
def fileSym : CsvFile :=
  ⟨"multi.csv", ["date", "open", "high", "low", "close", "volume", "symbol"],
   [[some "2024-01-02", some "1", some "2", some "1", some "1", some "3", some "MSFT"]]⟩

/-- C8 counterexample: the Tiingo loader stamps `df["ticker"] = ticker`
unconditionally, so a file that carries an entity column with per-row
value XYZ is ingested under the upper-cased file name stem AAPL, not
under the per-row value, refuting the claim that a file-carried
entity/symbol column is used per row. -/
theorem entity_key_counterexample :
    (Tiingo.process_csv_file fileTicker noFail 0 1 sEmpty).2 = true ∧
    ("AAPL", dateCode 2024 1 2) ∈
      (Tiingo.process_csv_file fileTicker noFail 0 1 sEmpty).1.data.keys ∧
    ("XYZ", dateCode 2024 1 2) ∉
      (Tiingo.process_csv_file fileTicker noFail 0 1 sEmpty).1.data.keys := by
  refine ⟨by decide, by decide, by decide⟩

/-- C8 amended: only the FMP loader (`src/loader.py`) honours a
file-carried symbol column per row; the Tiingo loader (`loader.py`)
stamps every row of every file with the upper-cased file name stem,
overwriting any ticker column the file carries.  When an FMP file has no
symbol column, every row is stamped with the file name stem as well. -/
theorem entity_key_amended :
    (∀ (f : CsvFile) (hdr : List String) (rows2 : List (List Cell)) (ds : List Nat)
      (ts : List (Key × List Cell)),
      (∀ r ∈ f.rows, r.length = f.header.length) →
      Tiingo.transformed f = some (hdr, rows2, ds) →
      mapO (Tiingo.tupleOf hdr) (rows2.zip ds) = some ts →
      ∀ kv ∈ ts, kv.1.1 = tickerOfFilename f.name) ∧
    (∀ (f : CsvFile) (hdr : List String) (rows2 : List (List Cell)) (ds : List Nat)
      (ts : List (Key × AVals)),
      (renameHeader Fmp.columnMapF f.header).contains "symbol" = true →
      Fmp.transformedF f = some (hdr, rows2, ds) →
      mapO (Fmp.tupleOfF hdr) (rows2.zip ds) = some ts →
      ∀ kv ∈ ts, ∃ rd, rd ∈ f.rows.zip ds ∧
        cellOf (renameHeader Fmp.columnMapF f.header) rd.1 "symbol" = some kv.1.1 ∧
        kv.1.2 = rd.2) ∧
    (∀ (f : CsvFile) (hdr : List String) (rows2 : List (List Cell)) (ds : List Nat)
      (ts : List (Key × AVals)),
      (∀ r ∈ f.rows, r.length = f.header.length) →
      (renameHeader Fmp.columnMapF f.header).contains "symbol" = false →
      Fmp.transformedF f = some (hdr, rows2, ds) →
      mapO (Fmp.tupleOfF hdr) (rows2.zip ds) = some ts →
      ∀ kv ∈ ts, kv.1.1 = tickerOfFilename f.name) := by
  refine ⟨?_, ?_, ?_⟩
  · intro f hdr rows2 ds ts hwf htr hts kv hkv
    obtain ⟨hh, hr⟩ := Tiingo.transformed_shape htr
    obtain ⟨rd, hrd, htup⟩ := mapO_mem hts kv hkv
    have hrd1 : rd.1 ∈ rows2 := (List.mem_zip hrd).1
    have hwf2 : ∀ r ∈ f.rows, r.length = (renameHeader Tiingo.columnMap f.header).length := by
      intro r hr2
      rw [show (renameHeader Tiingo.columnMap f.header).length = f.header.length from
        List.length_map _ _]
      exact hwf r hr2
    have hcell := setColumn_cellOf hwf2 rd.1 (by rw [← hr]; exact hrd1)
    rw [← hh] at hcell
    have hkey := (Tiingo.tupleOf_key htup).1
    rw [hcell] at hkey
    injection hkey with h3
    exact h3.symm
  · intro f hdr rows2 ds ts hsym htr hts kv hkv
    obtain ⟨hh, hr⟩ := Fmp.transformedF_shape_sym hsym htr
    obtain ⟨rd, hrd, htup⟩ := mapO_mem hts kv hkv
    refine ⟨rd, by rw [← hr]; exact hrd, ?_, (Fmp.tupleOfF_key htup).2⟩
    rw [← hh]
    exact (Fmp.tupleOfF_key htup).1
  · intro f hdr rows2 ds ts hwf hsym htr hts kv hkv
    obtain ⟨hh, hr⟩ := Fmp.transformedF_shape_nosym hsym htr
    obtain ⟨rd, hrd, htup⟩ := mapO_mem hts kv hkv
    have hrd1 : rd.1 ∈ rows2 := (List.mem_zip hrd).1
    have hwf2 : ∀ r ∈ f.rows, r.length = (renameHeader Fmp.columnMapF f.header).length := by
      intro r hr2
      rw [show (renameHeader Fmp.columnMapF f.header).length = f.header.length from
        List.length_map _ _]
      exact hwf r hr2
    have hcell := setColumn_cellOf hwf2 rd.1 (by rw [← hr]; exact hrd1)
    rw [← hh] at hcell
    have hkey := (Fmp.tupleOfF_key htup).1
    rw [hcell] at hkey
    injection hkey with h3
    exact h3.symm

/-- Witness for C8 amended: the Tiingo loader keys the fixture file with
the XYZ ticker column under AAPL (the file name), and the FMP loader
keys the symbol-carrying fixture under the per-row MSFT value. -/
theorem entity_key_amended_witness :
    (("AAPL", dateCode 2024 1 2),
      ([some "1", some "2", some "1", some "1", some "3", some "1", some "2",
        some "1", some "1", some "3", some "0", some "1"] : List Cell)).1.1 =
      tickerOfFilename fileTicker.name ∧
    (∃ rd, rd ∈ fileSym.rows.zip [dateCode 2024 1 2] ∧
      cellOf (renameHeader Fmp.columnMapF fileSym.header) rd.1 "symbol" = some "MSFT" ∧
      ((("MSFT", dateCode 2024 1 2), ([("open", some "1"), ("high", some "2"),
        ("low", some "1"), ("close", some "1"), ("volume", some "3")] : AVals)) :
        Key × AVals).1.2 = rd.2) := by
  constructor
  · exact entity_key_amended.1 fileTicker _ _ _ _ (by decide) rfl rfl
      ((("AAPL", dateCode 2024 1 2),
        ([some "1", some "2", some "1", some "1", some "3", some "1", some "2",
          some "1", some "1", some "3", some "0", some "1"] : List Cell)))
      (by decide)
  · exact entity_key_amended.2.1 fileSym _ _ _ _ (by decide) rfl rfl
      ((("MSFT", dateCode 2024 1 2), ([("open", some "1"), ("high", some "2"),
        ("low", some "1"), ("close", some "1"), ("volume", some "3")] : AVals)))
      (by decide)

/-- C9 counterexample: a database error during the batch insert of a
valid file makes `process_csv_file` take its exception path, which moves
the file but never closes the acquired connection: after the call one
connection acquired for this file is still unreleased, refuting the
claim that every connection is released on every exit path. -/
theorem connection_release_counterexample :
    sEmpty.leakedConns = 0 ∧
    (Tiingo.process_csv_file fileAapl ⟨false, [0]⟩ 0 1 sEmpty).2 = false ∧
    (Tiingo.process_csv_file fileAapl ⟨false, [0]⟩ 0 1 sEmpty).1.leakedConns = 1 := by
  refine ⟨rfl, by decide, by decide⟩

/-- C9 amended: on the successful path the connection is closed before
returning, and when the connection attempt itself fails nothing is left
open; but on a database error after the connection was acquired (batch
statement, metadata statement or commit) the exception handler does not
close it: exactly one acquired connection is left unreleased by that
file before control returns to the orchestrator. -/
theorem connection_release_amended (f : CsvFile) (plan : FailPlan) (now bs : Nat)
    (s : SysState (List Cell))
    {hdr : List String} {rows2 : List (List Cell)} {ds : List Nat}
    {ts : List (Key × List Cell)}
    (hne : f.rows ≠ [])
    (htr : Tiingo.transformed f = some (hdr, rows2, ds))
    (hcols : Tiingo.hasCols hdr = true)
    (hts : mapO (Tiingo.tupleOf hdr) (rows2.zip ds) = some ts) :
    (plan.connectFails = false →
      (∀ j, j ≤ (chunksOf bs (rows2.zip ds)).length + 1 → stmtFails plan j = false) →
      (Tiingo.process_csv_file f plan now bs s).1.leakedConns = s.leakedConns) ∧
    (plan.connectFails = false →
      (∃ j, j ≤ (chunksOf bs (rows2.zip ds)).length + 1 ∧ stmtFails plan j = true) →
      (Tiingo.process_csv_file f plan now bs s).1.leakedConns = s.leakedConns + 1) ∧
    (plan.connectFails = true →
      (Tiingo.process_csv_file f plan now bs s).1.leakedConns = s.leakedConns) := by
  refine ⟨?_, ?_, ?_⟩
  · intro hconn hok
    rw [Tiingo.processOk f plan now bs s hne htr hcols hts hconn hok]
  · intro hconn hex
    rw [Tiingo.processFail f plan now bs s hne htr hcols hts hconn hex]
  · intro hconn
    rw [Tiingo.processConnFail f plan now bs s hne htr hconn]

/-- Witness for C9 amended at the fixture file: the fault-free run
leaves no connection open, the first-batch fault leaves exactly one. -/
theorem connection_release_amended_witness :
    (Tiingo.process_csv_file fileAapl noFail 0 1 sEmpty).1.leakedConns =
      sEmpty.leakedConns ∧
    (Tiingo.process_csv_file fileAapl ⟨false, [0]⟩ 0 1 sEmpty).1.leakedConns =
      sEmpty.leakedConns + 1 := by
  constructor
  · exact (connection_release_amended fileAapl noFail 0 1 sEmpty (by decide)
      rfl rfl rfl).1 rfl (fun j _ => rfl)
  · exact (connection_release_amended fileAapl ⟨false, [0]⟩ 0 1 sEmpty (by decide)
      rfl rfl rfl).2.1 rfl ⟨0, by decide, by decide⟩

/-- C10 counterexample: with one valid file that ingests successfully,
`load_all_files` does not return the `(successful, failed)` pair: the
summary block calls `db_manager.get_ticker_stats(table_name=...)`,
which accepts no arguments, so a `TypeError` is raised before the final
return, refuting the claim that a pair is returned whenever at least
one file passes validation. -/
theorem load_all_files_return_counterexample :
    validate_csv fileAapl = true ∧
    (Tiingo.load_all_files [fileAapl] (fun _ => noFail) 0 1 sEmpty).1 =
      .error "TypeError: get_ticker_stats takes no keyword argument table_name" :=
  ⟨by decide, rfl⟩

/-- C10 amended: `load_all_files` bare-returns `None` when there are no
CSV files or none validates, so the tuple unpacking in `main` raises a
`TypeError` in that case; when at least one file validates, the files
are processed, and then: if any file succeeded the summary call
`db_manager.get_ticker_stats(table_name=...)` raises a `TypeError`
(that method takes no arguments), so the pair is never returned; only
when every processed file failed does the function return the pair
`(0, failed)` with the counts summing to the number of validated
files. -/
theorem load_all_files_return_amended (files : List CsvFile)
    (plans : String → FailPlan) (now bs : Nat) (s : SysState (List Cell)) :
    (files = [] → (Tiingo.load_all_files files plans now bs s).1 = .ok none ∧
      ∃ e, Tiingo.mainUnpack none = .error e) ∧
    (files.filter validate_csv = [] →
      (Tiingo.load_all_files files plans now bs s).1 = .ok none) ∧
    (files.filter validate_csv ≠ [] →
      0 < (Tiingo.runAll plans now bs (files.filter validate_csv) s 0 0).2.1 →
      ∃ e, (Tiingo.load_all_files files plans now bs s).1 = .error e) ∧
    (files.filter validate_csv ≠ [] →
      (Tiingo.runAll plans now bs (files.filter validate_csv) s 0 0).2.1 = 0 →
      (Tiingo.load_all_files files plans now bs s).1 =
        .ok (some ((Tiingo.runAll plans now bs (files.filter validate_csv) s 0 0).2.1,
          (Tiingo.runAll plans now bs (files.filter validate_csv) s 0 0).2.2)) ∧
      (Tiingo.runAll plans now bs (files.filter validate_csv) s 0 0).2.1 +
        (Tiingo.runAll plans now bs (files.filter validate_csv) s 0 0).2.2 =
        (files.filter validate_csv).length) := by
  refine ⟨?_, ?_, ?_, ?_⟩
  · intro h
    subst h
    exact ⟨rfl, ⟨_, rfl⟩⟩
  · intro hv
    unfold Tiingo.load_all_files
    cases hfe : files.isEmpty with
    | true => rfl
    | false =>
      simp only [Bool.false_eq_true, if_false, hv]
      rfl
  · intro hv hpos
    have hfe : files.isEmpty = false := by
      cases hf : files with
      | nil => rw [hf] at hv; exact absurd rfl hv
      | cons a l => rfl
    have hve : (files.filter validate_csv).isEmpty = false := by
      cases hf : files.filter validate_csv with
      | nil => exact absurd hf hv
      | cons a l => rfl
    refine ⟨"TypeError: get_ticker_stats takes no keyword argument table_name", ?_⟩
    unfold Tiingo.load_all_files
    simp only [hfe, hve, Bool.false_eq_true, if_false]
    rw [if_pos hpos]
  · intro hv hzero
    have hfe : files.isEmpty = false := by
      cases hf : files with
      | nil => rw [hf] at hv; exact absurd rfl hv
      | cons a l => rfl
    have hve : (files.filter validate_csv).isEmpty = false := by
      cases hf : files.filter validate_csv with
      | nil => exact absurd hf hv
      | cons a l => rfl
    constructor
    · unfold Tiingo.load_all_files
      simp only [hfe, hve, Bool.false_eq_true, if_false]
      rw [if_neg (by rw [hzero]; exact Nat.lt_irrefl 0)]
    · rw [runAll_count]
      omega

/-- Witness for C10 amended: no files gives `.ok none`; one valid file
that ingests successfully raises the stats `TypeError`; one valid file
whose processing fails returns the pair `(0, 1)`. -/
theorem load_all_files_return_amended_witness :
    (Tiingo.load_all_files [] (fun _ => noFail) 0 1
      ⟨⟨[], [], []⟩, emptyTable, [], 0⟩).1 = .ok none ∧
    (∃ e, (Tiingo.load_all_files [fileAapl] (fun _ => noFail) 0 1 sEmpty).1 =
      .error e) ∧
    (Tiingo.load_all_files [fileNoAdj] (fun _ => noFail) 0 1
      ⟨⟨["aapl.csv"], [], []⟩, emptyTable, [], 0⟩).1 = .ok (some (0, 1)) := by
  refine ⟨?_, ?_, ?_⟩
  · exact ((load_all_files_return_amended [] (fun _ => noFail) 0 1
      ⟨⟨[], [], []⟩, emptyTable, [], 0⟩).1 rfl).1
  · exact (load_all_files_return_amended [fileAapl] (fun _ => noFail) 0 1
      sEmpty).2.2.1 (by decide) (by decide)
  · have h := (load_all_files_return_amended [fileNoAdj] (fun _ => noFail) 0 1
      ⟨⟨["aapl.csv"], [], []⟩, emptyTable, [], 0⟩).2.2.2 (by decide) (by decide)
    rw [h.1]
    rfl

end Loader
